import Mathlib

/-!
# gostV3: rate-limited stream wrapper, connection-serving engine, HTTP quota client, node parsing

A shallow embedding of

* `limiter/traffic/wrapper/io.go`  (`readWriter`, `WrapReadWriter`, `Read`, `Write`),
* `service/service.go`             (`defaultService.Serve`, `Close`, `execCmds`),
* `limiter/traffic/plugin.go`      (`httpPlugin.In`, `httpPlugin.Out`),
* `config/parsing/node/parse.go`   (`ParseNode`).

Effects are made explicit: every call on a collaborator (the underlying stream, a
`Limiter`, the `TrafficLimiter`, the listener, a recorder, ...) is answered by an
environment value handed to the function, and is logged as an event in the trace
the function returns.
-/

namespace Gost

/-! ## Go runtime primitives -/

/-- One octet of a Go byte slice. -/
abbrev Byte := UInt8

/-- A Go error value (non-nil); nil is `none` in `Option GoError`. -/
structure GoError where
  msg : String
  deriving DecidableEq, Repr

/-- The sentinel `io.EOF`. -/
def EOF : GoError := ⟨"EOF"⟩

/-- Ways a modelled call can fail to return: a Go runtime panic (slice bounds out of
range), or the loop budget of the model being exhausted before the Go loop ends. -/
inductive Fault
  | runtimePanic
  | outOfFuel
  deriving DecidableEq, Repr

/-- Two's-complement wrap-around of an `int64` result. -/
def wrapInt64 (x : Int) : Int := (x + 9223372036854775808) % 18446744073709551616 - 9223372036854775808

/-- The Go slice expression `b[lo:hi]` on a slice whose capacity equals its length:
panics unless `0 ≤ lo ≤ hi ≤ len(b)`. -/
def sliceRange (b : List Byte) (lo hi : Int) : Except Fault (List Byte) :=
  if 0 ≤ lo ∧ lo ≤ hi ∧ hi ≤ (b.length : Int) then
    .ok ((b.take hi.toNat).drop lo.toNat)
  else
    .error .runtimePanic

/-- The result of `bytes.Buffer.Read(dst)` on a buffer whose unread part is `buf`:
the pair `(n, err)`, the contents of `dst` afterwards and the unread part afterwards.
An empty buffer yields `(0, nil)` for an empty `dst` and `(0, io.EOF)` otherwise;
a non-empty one copies `min(len(dst), Len())` bytes. -/
def bufferRead (buf dst : List Byte) : (Int × Option GoError) × List Byte × List Byte :=
  if buf.length = 0 then
    if dst.length = 0 then ((0, none), dst, []) else ((0, some EOF), dst, [])
  else
    let n := min dst.length buf.length
    (((n : Int), none), buf.take n ++ dst.drop n, buf.drop n)

/-! ## limiter/traffic/wrapper/io.go -/

/-- A `limiter.Limiter` handle (an interface value that is not nil). -/
structure Limiter where
  id : Nat
  deriving DecidableEq, Repr

/-- A `limiter.TrafficLimiter` handle (an interface value that is not nil). -/
structure TrafficLimiter where
  id : Nat
  deriving DecidableEq, Repr

/-- The `traffic.Options` record that a `traffic.Option` mutates. -/
structure Options where
  Network : String
  Addr : String
  Client : String
  Src : String
  deriving DecidableEq, Repr

/-- A `traffic.Option`, in Go `func(opts *Options)`. -/
abbrev LimiterOption := Options → Options

/-- The underlying `io.ReadWriter` (an interface value). -/
structure ReadWriter where
  id : Nat
  deriving DecidableEq, Repr

/-- The struct `readWriter`; `rbuf` holds the unread part of the `bytes.Buffer`. -/
structure readWriter where
  ReadWriter : ReadWriter
  rbuf : List Byte
  limiter : Option TrafficLimiter
  limiterIn : Option Limiter
  limiterOut : Option Limiter
  expIn : Int
  expOut : Int
  opts : List LimiterOption
  key : String

/-- What `WrapReadWriter` returns as an `io.ReadWriter`: either the stream it was
given, or a pointer to a fresh `readWriter`. -/
inductive WrappedStream
  | stream (rw : ReadWriter)
  | wrapper (p : readWriter)

/-- The function `WrapReadWriter`. The struct literal sets `ReadWriter`, `limiter`
and `opts` only; every other field, `key` included, keeps its zero value. -/
def WrapReadWriter (limiter : Option TrafficLimiter) (rw : ReadWriter) (key : String)
    (opts : List LimiterOption) : WrappedStream :=
  let _ := key
  match limiter with
  | none => .stream rw
  | some tl =>
    .wrapper
      { ReadWriter := rw
        rbuf := []
        limiter := some tl
        limiterIn := none
        limiterOut := none
        expIn := 0
        expOut := 0
        opts := opts
        key := "" }

/-- Calls made on collaborators of the wrapper, in program order. -/
inductive Event
  /-- the call `p.limiter.In(ctx, key, opts...)` -/
  | lookupIn (tl : TrafficLimiter) (key : String) (opts : List LimiterOption)
  /-- the call `p.limiter.Out(ctx, key, opts...)` -/
  | lookupOut (tl : TrafficLimiter) (key : String) (opts : List LimiterOption)
  /-- the call `limiter.Wait(ctx, n)` and the grant it returned -/
  | wait (lim : Limiter) (n : Nat) (granted : Int)
  /-- the call `p.ReadWriter.Read(b)`, the bytes it stored in `b` and its error -/
  | underRead (rw : ReadWriter) (b : List Byte) (data : List Byte) (err : Option GoError)
  /-- the call `p.ReadWriter.Write(b)` and its result `(n, err)` -/
  | underWrite (rw : ReadWriter) (b : List Byte) (n : Int) (err : Option GoError)

/-- The constant `60*time.Second`, in nanoseconds. -/
def cacheWindow : Int := 60 * 1000000000

/-- Answers of the collaborators during one `Read` call: the clock, the
`TrafficLimiter`, the `Limiter` and the underlying stream. A `Read` makes at most
one call on each. The underlying `Read(b)` answers with the bytes it stored at the
front of `b` (their number is its `n`) and its error. -/
structure ReadEnv where
  now : Int
  lookupIn : TrafficLimiter → String → List LimiterOption → Option Limiter
  wait : Limiter → Nat → Int
  read : List Byte → List Byte × Option GoError

/-- Answers of the collaborators during one `Write` call. The loop of `Write` calls
`Wait` and the underlying `Write` once per iteration, so these two are indexed by
the iteration number (from 0). -/
structure WriteEnv where
  now : Int
  lookupOut : TrafficLimiter → String → List LimiterOption → Option Limiter
  wait : Nat → Limiter → Nat → Int
  write : Nat → List Byte → Int × Option GoError

/-- The method `getInLimiter`: new state, returned limiter, calls made. -/
def getInLimiter (p : readWriter) (env : ReadEnv) : readWriter × Option Limiter × List Event :=
  match p.limiter with
  | some tl =>
    if wrapInt64 (env.now - p.expIn) > cacheWindow then
      let p1 :=
        match env.lookupIn tl p.key p.opts with
        | some lim => { p with limiterIn := some lim }
        | none => p
      let p2 := { p1 with expIn := env.now }
      (p2, p2.limiterIn, [Event.lookupIn tl p.key p.opts])
    else
      (p, p.limiterIn, [])
  | none => (p, p.limiterIn, [])

/-- The method `getOutLimiter`: new state, returned limiter, calls made. -/
def getOutLimiter (p : readWriter) (env : WriteEnv) : readWriter × Option Limiter × List Event :=
  match p.limiter with
  | some tl =>
    if wrapInt64 (env.now - p.expOut) > cacheWindow then
      let p1 :=
        match env.lookupOut tl p.key p.opts with
        | some lim => { p with limiterOut := some lim }
        | none => p
      let p2 := { p1 with expOut := env.now }
      (p2, p2.limiterOut, [Event.lookupOut tl p.key p.opts])
    else
      (p, p.limiterOut, [])
  | none => (p, p.limiterOut, [])

/-- What a `Read` call leaves behind: the returned `(n, err)`, the contents of the
caller's slice `b`, the wrapper state and the calls made. -/
structure ReadResult where
  n : Int
  err : Option GoError
  b : List Byte
  p : readWriter
  events : List Event

/-- The method `readWriter.Read`, on a caller's slice with contents `b`. -/
def Read (p : readWriter) (env : ReadEnv) (b : List Byte) : Except Fault ReadResult :=
  match getInLimiter p env with
  | (p1, none, ev) =>
    -- return p.ReadWriter.Read(b)
    let (data, err) := env.read b
    .ok { n := data.length, err := err, b := data ++ b.drop data.length, p := p1,
          events := ev ++ [Event.underRead p1.ReadWriter b data err] }
  | (p1, some limiter, ev) =>
    if p1.rbuf.length > 0 then
      let burst := if p1.rbuf.length < b.length then p1.rbuf.length else b.length
      let lim := env.wait limiter burst
      -- return p.rbuf.Read(b[:lim])
      match sliceRange b 0 lim with
      | .error f => .error f
      | .ok dst =>
        match bufferRead p1.rbuf dst with
        | ((n, err), dst1, rbuf1) =>
          .ok { n := n, err := err, b := dst1 ++ b.drop lim.toNat, p := { p1 with rbuf := rbuf1 },
                events := ev ++ [Event.wait limiter burst lim] }
    else
      let (data, err) := env.read b
      let nn : Int := data.length
      let b1 := data ++ b.drop data.length
      let ev1 := ev ++ [Event.underRead p1.ReadWriter b data err]
      match err with
      | some e => .ok { n := nn, err := some e, b := b1, p := p1, events := ev1 }
      | none =>
        let n := env.wait limiter data.length
        let ev2 := ev1 ++ [Event.wait limiter data.length n]
        if n < nn then
          -- p.rbuf.Write(b[n:nn]) appends and never returns an error
          match sliceRange b1 n nn with
          | .error f => .error f
          | .ok rest =>
            .ok { n := n, err := none, b := b1, p := { p1 with rbuf := p1.rbuf ++ rest },
                  events := ev2 }
        else
          .ok { n := n, err := none, b := b1, p := p1, events := ev2 }

/-- The bytes a `Read` call hands to its caller: `b[:n]`. -/
def ReadResult.delivered (r : ReadResult) : List Byte := r.b.take r.n.toNat

/-- One `Read` call: the caller's slice and the answers of the collaborators. -/
structure ReadCall where
  b : List Byte
  env : ReadEnv

/-- The outcome of a sequence of `Read` calls: final state, all bytes handed to the
callers in call order, all calls made on collaborators. -/
structure ReadsTrace where
  p : readWriter
  delivered : List Byte
  events : List Event

/-- A sequence of `Read` calls on one wrapper, in order. -/
def runReads (p : readWriter) : List ReadCall → Except Fault ReadsTrace
  | [] => .ok ⟨p, [], []⟩
  | c :: cs =>
    match Read p c.env c.b with
    | .error f => .error f
    | .ok r =>
      match runReads r.p cs with
      | .error f => .error f
      | .ok t => .ok ⟨t.p, r.delivered ++ t.delivered, r.events ++ t.events⟩

/-- All bytes the underlying stream stored into the slices passed to its `Read`,
in call order. -/
def bytesReadFromUnderlying : List Event → List Byte
  | [] => []
  | Event.underRead _ _ data _ :: es => data ++ bytesReadFromUnderlying es
  | _ :: es => bytesReadFromUnderlying es

/-- What a `Write` call leaves behind: the returned `(n, err)`, the wrapper state
and the calls made. -/
structure WriteResult where
  n : Int
  err : Option GoError
  p : readWriter
  events : List Event

/-- The loop `for len(b) > 0 { ... }` of `readWriter.Write`, entered at iteration
`i` with the remaining slice `b` and the running total `n`; `fuel` bounds the
number of iterations the model follows. Returns the final `(n, err)` and the
calls made. -/
def writeLoop (rw : ReadWriter) (limiter : Limiter) (env : WriteEnv) :
    Nat → Nat → List Byte → Int → Except Fault (Int × Option GoError × List Event)
  | fuel, i, b, n =>
    if b.length > 0 then
      match fuel with
      | 0 => .error .outOfFuel
      | fuel + 1 =>
        let g := env.wait i limiter b.length
        -- nn, err = p.ReadWriter.Write(b[:limiter.Wait(ctx, len(b))])
        match sliceRange b 0 g with
        | .error f => .error f
        | .ok chunk =>
          match env.write i chunk with
          | (nn, err) =>
            let n1 := wrapInt64 (n + nn)
            let ev := [Event.wait limiter b.length g, Event.underWrite rw chunk nn err]
            match err with
            | some e => .ok (n1, some e, ev)
            | none =>
              -- b = b[nn:]
              match sliceRange b nn b.length with
              | .error f => .error f
              | .ok rest =>
                match writeLoop rw limiter env fuel (i + 1) rest n1 with
                | .error f => .error f
                | .ok (n2, err2, ev2) => .ok (n2, err2, ev ++ ev2)
    else
      .ok (n, none, [])

/-- The method `readWriter.Write`. -/
def Write (fuel : Nat) (p : readWriter) (env : WriteEnv) (b : List Byte) : Except Fault WriteResult :=
  match getOutLimiter p env with
  | (p1, none, ev) =>
    -- return p.ReadWriter.Write(b)
    match env.write 0 b with
    | (n, err) =>
      .ok { n := n, err := err, p := p1, events := ev ++ [Event.underWrite p1.ReadWriter b n err] }
  | (p1, some limiter, ev) =>
    match writeLoop p1.ReadWriter limiter env fuel 0 b 0 with
    | .error f => .error f
    | .ok (n, err, ev1) => .ok { n := n, err := err, p := p1, events := ev ++ ev1 }

/-- All bytes passed to the underlying stream's `Write`, in call order. -/
def bytesWrittenToUnderlying : List Event → List Byte
  | [] => []
  | Event.underWrite _ chunk _ _ :: es => chunk ++ bytesWrittenToUnderlying es
  | _ :: es => bytesWrittenToUnderlying es

/-- Every `Wait` in the trace is followed at once by an underlying `Write` whose
slice has exactly the granted length, and no underlying `Write` occurs otherwise. -/
def chunksMatchGrants : List Event → Prop
  | [] => True
  | Event.wait _ _ g :: Event.underWrite _ chunk _ _ :: es =>
    (chunk.length : Int) = g ∧ chunksMatchGrants es
  | Event.lookupOut _ _ _ :: es => chunksMatchGrants es
  | _ => False

/-- The calls on the underlying stream among the calls of a trace. -/
def underlyingCalls : List Event → List Event
  | [] => []
  | Event.underRead rw b data err :: es => Event.underRead rw b data err :: underlyingCalls es
  | Event.underWrite rw b n err :: es => Event.underWrite rw b n err :: underlyingCalls es
  | _ :: es => underlyingCalls es

/-- The lookups on the `TrafficLimiter` among the calls of a trace. -/
def lookups : List Event → List Event
  | [] => []
  | Event.lookupIn tl key opts :: es => Event.lookupIn tl key opts :: lookups es
  | Event.lookupOut tl key opts :: es => Event.lookupOut tl key opts :: lookups es
  | _ :: es => lookups es

/-! ### Traces of calls that do not depend on how a call ends -/

/-- The calls the loop of `readWriter.Write` makes during its first `fuel`
iterations, whatever ends it: the end of the slice, an error of the underlying
stream, a panic of a slice expression, or the budget. The loop is the one of
`writeLoop`; a panic of `b[:g]` comes after the `Wait` and before the underlying
`Write`, a panic of `b[nn:]` after both. -/
def writeLoopCalls (rw : ReadWriter) (limiter : Limiter) (env : WriteEnv) :
    Nat → Nat → List Byte → List Event
  | fuel, i, b =>
    if b.length > 0 then
      match fuel with
      | 0 => []
      | fuel + 1 =>
        let g := env.wait i limiter b.length
        match sliceRange b 0 g with
        | .error _ => [Event.wait limiter b.length g]
        | .ok chunk =>
          match env.write i chunk with
          | (nn, err) =>
            let ev := [Event.wait limiter b.length g, Event.underWrite rw chunk nn err]
            match err with
            | some _ => ev
            | none =>
              match sliceRange b nn b.length with
              | .error _ => ev
              | .ok rest => ev ++ writeLoopCalls rw limiter env fuel (i + 1) rest
    else
      []

/-- The calls `readWriter.Write` makes when its loop is followed for `fuel`
iterations, whatever ends the call. -/
def WriteCalls (fuel : Nat) (p : readWriter) (env : WriteEnv) (b : List Byte) : List Event :=
  match getOutLimiter p env with
  | (p1, none, ev) =>
    match env.write 0 b with
    | (n, err) => ev ++ [Event.underWrite p1.ReadWriter b n err]
  | (p1, some limiter, ev) => ev ++ writeLoopCalls p1.ReadWriter limiter env fuel 0 b

/-- The slices passed to the underlying stream's `Write`, in call order. -/
def writtenChunks : List Event → List (List Byte)
  | [] => []
  | Event.underWrite _ chunk _ _ :: es => chunk :: writtenChunks es
  | _ :: es => writtenChunks es

/-- The slices passed to the underlying stream's `Read`, in call order. -/
def readBuffers : List Event → List (List Byte)
  | [] => []
  | Event.underRead _ b _ _ :: es => b :: readBuffers es
  | _ :: es => readBuffers es

/-- One call on a wrapper: `Read(b)` or `Write(b)`, with the answers of the
collaborators (and, for `Write`, the budget of loop iterations). -/
inductive Op
  | read (b : List Byte) (env : ReadEnv)
  | write (fuel : Nat) (b : List Byte) (env : WriteEnv)

/-- The state of a wrapper after a sequence of calls and the calls it made on its
collaborators. -/
structure OpsTrace where
  p : readWriter
  events : List Event

/-- A sequence of `Read` and `Write` calls on one wrapper, in order. -/
def runOps (p : readWriter) : List Op → Except Fault OpsTrace
  | [] => .ok ⟨p, []⟩
  | Op.read b env :: ops =>
    match Read p env b with
    | .error f => .error f
    | .ok r =>
      match runOps r.p ops with
      | .error f => .error f
      | .ok t => .ok ⟨t.p, r.events ++ t.events⟩
  | Op.write fuel b env :: ops =>
    match Write fuel p env b with
    | .error f => .error f
    | .ok r =>
      match runOps r.p ops with
      | .error f => .error f
      | .ok t => .ok ⟨t.p, r.events ++ t.events⟩

/-- The lookups on the `TrafficLimiter` made along a sequence of calls, up to and
including the call that does not return, if there is one. `Read` and `Write`
look up only through their first statement, `getInLimiter` or `getOutLimiter`. -/
def lookupsIssued (p : readWriter) : List Op → List Event
  | [] => []
  | Op.read b env :: ops =>
    (getInLimiter p env).2.2
      ++ (match Read p env b with
          | .error _ => []
          | .ok r => lookupsIssued r.p ops)
  | Op.write fuel b env :: ops =>
    (getOutLimiter p env).2.2
      ++ (match Write fuel p env b with
          | .error _ => []
          | .ok r => lookupsIssued r.p ops)

/-! ## service/service.go -/

/-- An error returned by `listener.Accept`: whether it implements `net.Error`
(the assertion `e.(net.Error)` succeeds) and, if so, what `Temporary()` answers. -/
structure AcceptError where
  msg : String
  isNetError : Bool
  temporary : Bool
  deriving DecidableEq, Repr

/-- The test `ne, ok := e.(net.Error); ok && ne.Temporary()`. -/
def AcceptError.isTemporary (e : AcceptError) : Bool := e.isNetError && e.temporary

/-- An accepted `net.Conn`, with the string of its `RemoteAddr()`. -/
structure Conn where
  id : Nat
  remoteAddr : String
  deriving DecidableEq, Repr

/-- A `recorder.Recorder` handle. -/
structure Recorder where
  id : Nat
  deriving DecidableEq, Repr

/-- The struct `recorder.RecorderObject`: a recorder bound to a record kind. -/
structure RecorderObject where
  Recorder : Recorder
  Record : String
  deriving DecidableEq, Repr

/-- An `admission.Admission` handle (an interface value that is not nil). -/
structure Admission where
  id : Nat
  deriving DecidableEq, Repr

/-- A `listener.Listener` handle. -/
structure Listener where
  id : Nat
  deriving DecidableEq, Repr

/-- A `handler.Handler`; `closeable` tells whether it also implements `io.Closer`. -/
structure Handler where
  id : Nat
  closeable : Bool
  deriving DecidableEq, Repr

/-- The struct `options` of the service (the logger is represented by log events). -/
structure options where
  admission : Option Admission
  recorders : List RecorderObject
  preUp : List String
  postUp : List String
  preDown : List String
  postDown : List String
  deriving DecidableEq, Repr

/-- The struct `defaultService`. -/
structure defaultService where
  name : String
  listener : Listener
  handler : Handler
  options : options
  deriving DecidableEq, Repr

/-- The metrics the service asks `xmetrics` for. -/
inductive Metric
  | MetricServicesGauge
  | MetricServiceRequestsCounter
  | MetricServiceRequestsInFlightGauge
  | MetricServiceRequestsDurationObserver
  | MetricServiceHandlerErrorsCounter
  deriving DecidableEq, Repr

/-- Logger methods used by the service. -/
inductive LogLevel
  | Debug
  | Info
  | Warn
  | Error
  deriving DecidableEq, Repr

/-- What the service takes from outside `service.go`: the constant
`recorder.RecorderServiceClientAddress`, the host part answered by
`net.SplitHostPort`, `strings.TrimSpace`, whether `xmetrics.GetGauge`,
`GetCounter` and `GetObserver` answer non-nil for a metric, and the result of
running a shell command (by phase, position in the list and command text). -/
structure Runtime where
  RecorderServiceClientAddress : String
  splitHost : String → String
  trimSpace : String → String
  metric : Metric → Bool
  run : String → Nat → String → Option GoError

/-- Effects inside the goroutine that `Serve` starts for an admitted connection. -/
inductive TaskEvent
  | counterInc (m : Metric) (service client : String)
  | gaugeInc (m : Metric) (service client : String)
  | gaugeDec (m : Metric) (service client : String)
  | observe (m : Metric) (service : String)
  /-- the call `s.handler.Handle(ctx, conn)` -/
  | handle (h : Handler) (c : Conn)
  | log (level : LogLevel)
  deriving DecidableEq, Repr

/-- Effects of the service on its own goroutine, in program order. -/
inductive SEvent
  /-- a logger call, with its message or format string -/
  | log (level : LogLevel) (text : String)
  /-- the call `exec.Command("/bin/sh", "-c", cmd).Run()` -/
  | exec (phase : String) (cmd : String)
  | gaugeInc (m : Metric)
  | gaugeDec (m : Metric)
  /-- the call `s.listener.Accept()` -/
  | accept
  /-- the call `time.Sleep(d)`, `d` in nanoseconds -/
  | sleep (d : Int)
  /-- the call `rec.Recorder.Record(ctx, payload)` on the binding at position `index` -/
  | record (index : Nat) (r : Recorder) (payload : String)
  /-- the call `s.options.admission.Admit(ctx, addr)` and its answer -/
  | admission (a : Admission) (addr : String) (answer : Bool)
  /-- the call `conn.Close()` -/
  | connClose (c : Conn)
  /-- the statement `go func() { ... }()`, with the effects of the function body -/
  | go (task : List TaskEvent)
  /-- the call `closer.Close()` on the handler -/
  | handlerClose (h : Handler)
  /-- the call `s.listener.Close()` -/
  | listenerClose (l : Listener)
  deriving DecidableEq, Repr

/-- The method `execCmds`, from position `i` of the command list. -/
def execCmds (rt : Runtime) (phase : String) : Nat → List String → List SEvent
  | _, [] => []
  | i, cmd :: rest =>
    let cmd1 := rt.trimSpace cmd
    if cmd1 = "" then
      execCmds rt phase (i + 1) rest
    else
      [SEvent.log .Info cmd1, SEvent.exec phase cmd1]
        ++ (match rt.run phase i cmd1 with
            | some _ => [SEvent.log .Warn "[%s] %s: %v"]
            | none => [])
        ++ execCmds rt phase (i + 1) rest

/-- The method `Close`, given the results of the handler's and the listener's
`Close`: the effects in order and the returned error. The deferred
`execCmds("post-down", ...)` runs after the return value has been computed. -/
def Close (s : defaultService) (rt : Runtime) (handlerErr listenerErr : Option GoError) :
    List SEvent × Option GoError :=
  let _ := handlerErr
  let preDown := execCmds rt "pre-down" 0 s.options.preDown
  let closer := if s.handler.closeable then [SEvent.handlerClose s.handler] else []
  let result := listenerErr
  let postDown := execCmds rt "post-down" 0 s.options.postDown
  (preDown ++ closer ++ [SEvent.listenerClose s.listener] ++ postDown, result)

/-- The constant `time.Second`, in nanoseconds. -/
def second : Int := 1000000000

/-- Lines 131-138 of `Serve`: the new `tempDelay` on a temporary accept error. -/
def nextDelay (tempDelay : Int) : Int :=
  let d := if tempDelay = 0 then 1 * second else wrapInt64 (tempDelay * 2)
  if d > 5 * second then 5 * second else d

/-- What one `Accept` call yields, with the answers the collaborators give while
the connection is processed: the error of `Record` (if it is called), the answer
of `Admit` (if it is called) and the error of `Handle`. -/
inductive AcceptOutcome
  | failure (e : AcceptError)
  | conn (c : Conn) (recordErr : Option GoError) (allow : Bool) (handleErr : Option GoError)

/-- The client IP of a connection: the host of `net.SplitHostPort(clientAddr)` if
that is not empty, else the whole address. -/
def clientIPOf (rt : Runtime) (c : Conn) : String :=
  if rt.splitHost c.remoteAddr ≠ "" then rt.splitHost c.remoteAddr else c.remoteAddr

/-- The loop over `s.options.recorders` in `Serve`, from position `i`. -/
def recordClientAddress (rt : Runtime) (clientIP : String) (recordErr : Option GoError) :
    Nat → List RecorderObject → List SEvent
  | _, [] => []
  | i, rec :: rest =>
    if rec.Record = rt.RecorderServiceClientAddress then
      -- Record is called, its error is logged, and the loop breaks
      [SEvent.record i rec.Recorder clientIP]
        ++ (match recordErr with
            | some _ => [SEvent.log .Error "record %s: %v"]
            | none => [])
    else
      recordClientAddress rt clientIP recordErr (i + 1) rest

/-- The body of the goroutine started for an admitted connection; the two
deferred calls run last, in reverse order of their `defer` statements. -/
def handleTask (s : defaultService) (rt : Runtime) (c : Conn) (clientIP : String)
    (handleErr : Option GoError) : List TaskEvent :=
  (if rt.metric .MetricServiceRequestsCounter then
      [TaskEvent.counterInc .MetricServiceRequestsCounter s.name clientIP] else [])
    ++ (if rt.metric .MetricServiceRequestsInFlightGauge then
      [TaskEvent.gaugeInc .MetricServiceRequestsInFlightGauge s.name clientIP] else [])
    ++ [TaskEvent.handle s.handler c]
    ++ (match handleErr with
        | some _ =>
          [TaskEvent.log .Error]
            ++ (if rt.metric .MetricServiceHandlerErrorsCounter then
              [TaskEvent.counterInc .MetricServiceHandlerErrorsCounter s.name clientIP] else [])
        | none => [])
    ++ (if rt.metric .MetricServiceRequestsDurationObserver then
      [TaskEvent.observe .MetricServiceRequestsDurationObserver s.name] else [])
    ++ (if rt.metric .MetricServiceRequestsInFlightGauge then
      [TaskEvent.gaugeDec .MetricServiceRequestsInFlightGauge s.name clientIP] else [])

/-- The effects of `Serve` so far and, once it has returned, the error returned;
`returned = none` means the loop is waiting in its next `Accept`. -/
structure ServeResult where
  events : List SEvent
  returned : Option AcceptError
  deriving DecidableEq, Repr

/-- The `for` loop of `Serve`, entered with the current `tempDelay`, run on the
outcomes of the successive `Accept` calls. -/
def serveLoop (s : defaultService) (rt : Runtime) : Int → List AcceptOutcome → ServeResult
  | _, [] => ⟨[], none⟩
  | tempDelay, AcceptOutcome.failure e :: rest =>
    if e.isTemporary then
      let tempDelay1 := nextDelay tempDelay
      let r := serveLoop s rt tempDelay1 rest
      ⟨[SEvent.accept, SEvent.log .Warn "accept: %v, retrying in %v", SEvent.sleep tempDelay1]
        ++ r.events, r.returned⟩
    else
      ⟨[SEvent.accept, SEvent.log .Error "accept: %v"], some e⟩
  | _, AcceptOutcome.conn c recordErr allow handleErr :: rest =>
    -- tempDelay = 0
    let clientIP := clientIPOf rt c
    let recorded := recordClientAddress rt clientIP recordErr 0 s.options.recorders
    let r := serveLoop s rt 0 rest
    match s.options.admission with
    | some a =>
      if !allow then
        ⟨[SEvent.accept] ++ recorded
          ++ [SEvent.admission a c.remoteAddr false, SEvent.connClose c,
              SEvent.log .Debug "admission: %s is denied"]
          ++ r.events, r.returned⟩
      else
        ⟨[SEvent.accept] ++ recorded
          ++ [SEvent.admission a c.remoteAddr true,
              SEvent.go (handleTask s rt c clientIP handleErr)]
          ++ r.events, r.returned⟩
    | none =>
      ⟨[SEvent.accept] ++ recorded ++ [SEvent.go (handleTask s rt c clientIP handleErr)]
        ++ r.events, r.returned⟩

/-- The method `Serve`, run on the outcomes of the successive `Accept` calls. The
deferred `v.Dec()` of the services gauge runs when `Serve` returns. -/
def Serve (s : defaultService) (rt : Runtime) (outcomes : List AcceptOutcome) : ServeResult :=
  let postUp := execCmds rt "post-up" 0 s.options.postUp
  let r := serveLoop s rt 0 outcomes
  if rt.metric .MetricServicesGauge then
    ⟨postUp ++ [SEvent.gaugeInc .MetricServicesGauge] ++ r.events
      ++ (match r.returned with
          | some _ => [SEvent.gaugeDec .MetricServicesGauge]
          | none => []), r.returned⟩
  else
    ⟨postUp ++ r.events, r.returned⟩

/-- The durations slept, in order. -/
def sleeps : List SEvent → List Int
  | [] => []
  | SEvent.sleep d :: es => d :: sleeps es
  | _ :: es => sleeps es

/-- The number of `Accept` calls. -/
def acceptCalls : List SEvent → Nat
  | [] => 0
  | SEvent.accept :: es => acceptCalls es + 1
  | _ :: es => acceptCalls es

/-- The `Record` calls, in order. -/
def recordCalls : List SEvent → List SEvent
  | [] => []
  | SEvent.record i r payload :: es => SEvent.record i r payload :: recordCalls es
  | _ :: es => recordCalls es

/-- The commands run, in order. -/
def commandsRun : List SEvent → List String
  | [] => []
  | SEvent.exec _ cmd :: es => cmd :: commandsRun es
  | _ :: es => commandsRun es

/-- Whether an effect starts a goroutine (the only place where `Handle` is called
and the request counter is incremented). -/
def SEvent.isGo : SEvent → Bool
  | SEvent.go _ => true
  | _ => false

/-- An outcome that ends `Serve`: an accept error that is not temporary. -/
def AcceptOutcome.fatal : AcceptOutcome → Bool
  | AcceptOutcome.failure e => !e.isTemporary
  | AcceptOutcome.conn _ _ _ _ => false

/-- An outcome that is a temporary accept error. -/
def AcceptOutcome.temporaryFailure : AcceptOutcome → Bool
  | AcceptOutcome.failure e => e.isTemporary
  | AcceptOutcome.conn _ _ _ _ => false

/-- An outcome that is an accepted connection. -/
def AcceptOutcome.accepted : AcceptOutcome → Bool
  | AcceptOutcome.failure _ => false
  | AcceptOutcome.conn _ _ _ _ => true

/-- The value of `tempDelay` after the loop, entered with `d`, has processed the
given outcomes (none of them fatal). -/
def delayAfter : Int → List AcceptOutcome → Int
  | d, [] => d
  | d, AcceptOutcome.failure _ :: rest => delayAfter (nextDelay d) rest
  | _, AcceptOutcome.conn _ _ _ _ :: rest => delayAfter 0 rest

/-! ## limiter/traffic/plugin.go -/

/-- The struct `httpPluginRequest`. -/
structure httpPluginRequest where
  Network : String
  Addr : String
  Client : String
  Src : String
  deriving DecidableEq, Repr

/-- The struct `httpPluginResponse` (both fields are `int64`). -/
structure httpPluginResponse where
  In : Int
  Out : Int
  deriving DecidableEq, Repr

/-- An `http.Header`, as a list of key and value. -/
abbrev Header := List (String × String)

/-- The method `http.Header.Set`: the value replaces whatever the key had. -/
def Header.set (h : Header) (key value : String) : Header :=
  h.filter (fun kv => kv.1 != key) ++ [(key, value)]

/-- An `*http.Request`. -/
structure HttpRequest where
  Method : String
  URL : String
  Header : Header
  Body : List Byte
  deriving DecidableEq, Repr

/-- An `*http.Response`. -/
structure HttpResponse where
  StatusCode : Int
  Body : String
  deriving DecidableEq, Repr

/-- An `*http.Client` that is not nil. -/
structure HttpClient where
  id : Nat
  deriving DecidableEq, Repr

/-- The struct `httpPlugin` (the logger is left out; `In` and `Out` do not log). -/
structure httpPlugin where
  url : String
  client : Option HttpClient
  header : Option Header
  deriving DecidableEq, Repr

/-- What the plugin takes from outside `plugin.go`: `json.Marshal` of the request,
`http.NewRequestWithContext` with method POST (given URL and body), the client's
`Do`, `json.NewDecoder(body).Decode` into a zero `httpPluginResponse`, and the
constructor `NewLimiter` of the same package, whose source file is not part of
the sources at hand. -/
structure PluginRuntime where
  marshal : httpPluginRequest → Except GoError (List Byte)
  newRequest : String → List Byte → Except GoError HttpRequest
  doRequest : HttpClient → HttpRequest → Except GoError HttpResponse
  decode : String → Except GoError httpPluginResponse
  NewLimiter : Int → Option Limiter

/-- The loop `for _, opt := range opts { opt(&options) }` on a zero `Options`. -/
def applyOptions (opts : List LimiterOption) : Options :=
  opts.foldl (fun options opt => opt options) ⟨"", "", "", ""⟩

/-- The constant `http.StatusOK`. -/
def StatusOK : Int := 200

/-- The request handed to `p.client.Do`: the configured header, if any, replaces
the header of the new request, and `Content-Type` is set. -/
def httpPlugin.prepare (p : httpPlugin) (req : HttpRequest) : HttpRequest :=
  let req1 :=
    match p.header with
    | some h => { req with Header := h }
    | none => req
  { req1 with Header := req1.Header.set "Content-Type" "application/json" }

/-- The method `httpPlugin.In`; `int(res.In)` is the identity, `int` having 64 bits. -/
def httpPlugin.In (p : httpPlugin) (rt : PluginRuntime) (key : String)
    (opts : List LimiterOption) : Option Limiter :=
  let _ := key
  match p.client with
  | none => none
  | some client =>
    let options := applyOptions opts
    let rb : httpPluginRequest :=
      { Network := options.Network, Addr := options.Addr, Client := options.Client,
        Src := options.Src }
    match rt.marshal rb with
    | .error _ => none
    | .ok v =>
      match rt.newRequest p.url v with
      | .error _ => none
      | .ok req =>
        match rt.doRequest client (p.prepare req) with
        | .error _ => none
        | .ok resp =>
          if resp.StatusCode ≠ StatusOK then
            none
          else
            match rt.decode resp.Body with
            | .error _ => none
            | .ok res => rt.NewLimiter res.In

/-- The method `httpPlugin.Out`; `int(res.Out)` is the identity, `int` having 64 bits. -/
def httpPlugin.Out (p : httpPlugin) (rt : PluginRuntime) (key : String)
    (opts : List LimiterOption) : Option Limiter :=
  let _ := key
  match p.client with
  | none => none
  | some client =>
    let options := applyOptions opts
    let rb : httpPluginRequest :=
      { Network := options.Network, Addr := options.Addr, Client := options.Client,
        Src := options.Src }
    match rt.marshal rb with
    | .error _ => none
    | .ok v =>
      match rt.newRequest p.url v with
      | .error _ => none
      | .ok req =>
        match rt.doRequest client (p.prepare req) with
        | .error _ => none
        | .ok resp =>
          if resp.StatusCode ≠ StatusOK then
            none
          else
            match rt.decode resp.Body with
            | .error _ => none
            | .ok res => rt.NewLimiter res.Out

/-- The request body `In` and `Out` marshal for the given options. -/
def requestOf (opts : List LimiterOption) : httpPluginRequest :=
  { Network := (applyOptions opts).Network, Addr := (applyOptions opts).Addr,
    Client := (applyOptions opts).Client, Src := (applyOptions opts).Src }

/-! ### The JSON decoder of the Go standard library, as `In` and `Out` call it

`json.NewDecoder(resp.Body).Decode(&res)` scans the first JSON value of the body
(white space before it is skipped, what follows it is not examined) and stores
it into the zero `httpPluginResponse`. The body is taken as text, that is, as
valid UTF-8.
-/

/-- The kind of a scanned JSON value; for a number its sign, the digits of its
integer part, and whether it has neither a fraction nor an exponent. -/
inductive JShape
  | null
  | bool
  | number (negative : Bool) (digits : List Char) (integer : Bool)
  | string
  | array
  | object
  deriving DecidableEq, Repr

/-- The white space of JSON: space, tab, carriage return, line feed. -/
def jsonSpace (c : Char) : Bool := c == ' ' || c == '\t' || c == '\r' || c == '\n'

/-- The input after its leading white space. -/
def skipSpace : List Char → List Char
  | [] => []
  | c :: cs => if jsonSpace c then skipSpace cs else c :: cs

/-- The value of a hexadecimal digit. -/
def hexValue (c : Char) : Option Nat :=
  if c.isDigit then some (c.toNat - 48)
  else if 'a' ≤ c ∧ c ≤ 'f' then some (c.toNat - 87)
  else if 'A' ≤ c ∧ c ≤ 'F' then some (c.toNat - 55)
  else none

/-- The character a one-letter escape stands for; any other letter after a
backslash is a syntax error. -/
def escapeChar (e : Char) : Option Char :=
  if e = '\x22' then some '\x22'
  else if e = '\x5c' then some '\x5c'
  else if e = '/' then some '/'
  else if e = 'b' then some (Char.ofNat 8)
  else if e = 'f' then some (Char.ofNat 12)
  else if e = 'n' then some '\n'
  else if e = 'r' then some '\r'
  else if e = 't' then some '\t'
  else none

/-- The character of a `\uXXXX` escape. An escaped surrogate becomes U+FFFD (the
library joins a valid pair of them into one character beyond U+FFFF; either
way the character is not an ASCII letter). -/
def unicodeEscape (v : Nat) : Char :=
  if 0xD800 ≤ v ∧ v < 0xE000 then Char.ofNat 0xFFFD else Char.ofNat v

/-- A JSON string after its opening quote: the characters it denotes and the input
after its closing quote. A control character, an unknown escape or the end of
the input inside the string is an error. The budget is the number of characters
that may still be consumed. -/
def scanString : Nat → List Char → Option (List Char × List Char)
  | 0, _ => none
  | _, [] => none
  | fuel + 1, c :: r =>
    if c = '\x22' then
      some ([], r)
    else if c = '\x5c' then
      match r with
      | [] => none
      | e :: r1 =>
        if e = 'u' then
          match r1 with
          | h1 :: h2 :: h3 :: h4 :: r2 =>
            match hexValue h1, hexValue h2, hexValue h3, hexValue h4 with
            | some a, some b, some c, some d =>
              match scanString fuel r2 with
              | some (s, rest) => some (unicodeEscape (((a * 16 + b) * 16 + c) * 16 + d) :: s, rest)
              | none => none
            | _, _, _, _ => none
          | _ => none
        else
          match escapeChar e with
          | some ch =>
            match scanString fuel r1 with
            | some (s, rest) => some (ch :: s, rest)
            | none => none
          | none => none
    else if c.toNat < 32 then
      none
    else
      match scanString fuel r with
      | some (s, rest) => some (c :: s, rest)
      | none => none

/-- The exponent of a JSON number, if there is one: `e` or `E`, an optional sign,
at least one digit. -/
def scanExponent (negative : Bool) (digits : List Char) (integer : Bool) (cs : List Char) :
    Option (JShape × List Char) :=
  match cs with
  | [] => some (JShape.number negative digits integer, [])
  | c :: r =>
    if c = 'e' ∨ c = 'E' then
      let r1 :=
        match r with
        | [] => r
        | sign :: r2 => if sign = '+' ∨ sign = '-' then r2 else r
      if r1.takeWhile Char.isDigit = [] then none
      else some (JShape.number negative digits false, r1.dropWhile Char.isDigit)
    else
      some (JShape.number negative digits integer, cs)

/-- The fraction of a JSON number, if there is one: a point and at least one
digit; then the exponent. -/
def scanFraction (negative : Bool) (digits : List Char) (cs : List Char) :
    Option (JShape × List Char) :=
  match cs with
  | [] => scanExponent negative digits true cs
  | c :: r =>
    if c = '.' then
      if r.takeWhile Char.isDigit = [] then none
      else scanExponent negative digits false (r.dropWhile Char.isDigit)
    else
      scanExponent negative digits true cs

/-- A JSON number: an optional minus sign, then `0` or a digit from 1 to 9
followed by digits, then fraction and exponent. -/
def scanNumber (cs : List Char) : Option (JShape × List Char) :=
  let negative := cs.head? == some '-'
  let cs1 := if negative then cs.drop 1 else cs
  match cs1 with
  | [] => none
  | c :: r =>
    if c = '0' then
      scanFraction negative ['0'] r
    else if c.isDigit then
      scanFraction negative (c :: r.takeWhile Char.isDigit) (r.dropWhile Char.isDigit)
    else
      none

/-- One of the literals `true`, `false`, `null`. -/
def scanLiteral (word : List Char) (shape : JShape) (cs : List Char) : Option (JShape × List Char) :=
  if word.isPrefixOf cs then some (shape, cs.drop word.length) else none

/-- Where the scanner stands: before a value, before the key of an object member
(after the opening brace of a non-empty object or after a comma), or before an
array element. -/
inductive ScanMode
  | value
  | members
  | elements
  deriving DecidableEq, Repr

/-- The nesting depth beyond which the library's scanner gives up. -/
def maxNestingDepth : Nat := 10000

/-- The scanner. In mode `value` it reads one JSON value and answers its kind,
the members of the value if it is an object (each with its key and the kind of
its value, in order), and the rest of the input. In the other two modes it
reads the remaining members of an object up to its closing brace, or the
remaining elements of an array up to its closing bracket. `none` is a syntax
error or the end of the input inside a value. `depth` counts the objects and
arrays that are open; the first argument bounds the depth of the recursion. -/
def scan : Nat → Nat → ScanMode → List Char → Option (JShape × List (List Char × JShape) × List Char)
  | 0, _, _, _ => none
  | fuel + 1, depth, ScanMode.value, cs =>
    match skipSpace cs with
    | [] => none
    | c :: r =>
      if c = '\x7b' then
        if depth + 1 > maxNestingDepth then none
        else
          match skipSpace r with
          | [] => none
          | c1 :: r1 =>
            if c1 = '\x7d' then some (JShape.object, [], r1)
            else
              match scan fuel (depth + 1) ScanMode.members r with
              | some (_, ms, rest) => some (JShape.object, ms, rest)
              | none => none
      else if c = '[' then
        if depth + 1 > maxNestingDepth then none
        else
          match skipSpace r with
          | [] => none
          | c1 :: r1 =>
            if c1 = ']' then some (JShape.array, [], r1)
            else
              match scan fuel (depth + 1) ScanMode.elements r with
              | some (_, _, rest) => some (JShape.array, [], rest)
              | none => none
      else if c = '\x22' then
        match scanString r.length r with
        | some (_, rest) => some (JShape.string, [], rest)
        | none => none
      else if c = '-' ∨ c.isDigit then
        match scanNumber (c :: r) with
        | some (shape, rest) => some (shape, [], rest)
        | none => none
      else if c = 't' then
        match scanLiteral ['t', 'r', 'u', 'e'] JShape.bool (c :: r) with
        | some (shape, rest) => some (shape, [], rest)
        | none => none
      else if c = 'f' then
        match scanLiteral ['f', 'a', 'l', 's', 'e'] JShape.bool (c :: r) with
        | some (shape, rest) => some (shape, [], rest)
        | none => none
      else if c = 'n' then
        match scanLiteral ['n', 'u', 'l', 'l'] JShape.null (c :: r) with
        | some (shape, rest) => some (shape, [], rest)
        | none => none
      else
        none
  | fuel + 1, depth, ScanMode.members, cs =>
    match skipSpace cs with
    | [] => none
    | c :: r =>
      if c = '\x22' then
        match scanString r.length r with
        | none => none
        | some (key, r1) =>
          match skipSpace r1 with
          | [] => none
          | c2 :: r2 =>
            if c2 = ':' then
              match scan fuel depth ScanMode.value r2 with
              | none => none
              | some (shape, _, r3) =>
                match skipSpace r3 with
                | [] => none
                | c4 :: r4 =>
                  if c4 = ',' then
                    match scan fuel depth ScanMode.members r4 with
                    | some (_, ms, rest) => some (JShape.object, (key, shape) :: ms, rest)
                    | none => none
                  else if c4 = '\x7d' then
                    some (JShape.object, [(key, shape)], r4)
                  else
                    none
            else
              none
      else
        none
  | fuel + 1, depth, ScanMode.elements, cs =>
    match scan fuel depth ScanMode.value cs with
    | none => none
    | some (_, _, r1) =>
      match skipSpace r1 with
      | [] => none
      | c2 :: r2 =>
        if c2 = ',' then
          match scan fuel depth ScanMode.elements r2 with
          | some (_, _, rest) => some (JShape.array, [], rest)
          | none => none
        else if c2 = ']' then
          some (JShape.array, [], r2)
        else
          none

/-- The first JSON value of a body. Every recursive call of `scan` but the one
from `elements` to `value` follows at least one consumed character, so twice the
length of the body bounds the depth of the recursion. -/
def scanBody (body : String) : Option (JShape × List (List Char × JShape) × List Char) :=
  scan (2 * body.length + 2) 0 ScanMode.value body.toList

/-- Whether a key names the field: the library takes the field whose name equals
the key, or else the one equal to it without regard to case; no character
outside ASCII folds to a letter of `in` or `out`. -/
def keyIs (name : String) (key : List Char) : Bool := key.map Char.toLower == name.toList

/-- The number a run of decimal digits denotes. -/
def digitsValue (digits : List Char) : Nat :=
  digits.foldl (fun acc c => 10 * acc + (c.toNat - 48)) 0

/-- What the library stores into an `int64` field for a value of the given kind:
`some (some n)` sets the field, `some none` leaves it as it is (the value
`null`), `none` is an `UnmarshalTypeError` (a number with a fraction or an
exponent, a number out of the `int64` range, or a value of another kind). -/
def int64Of (shape : JShape) : Option (Option Int) :=
  match shape with
  | JShape.null => some none
  | JShape.number negative digits integer =>
    let n : Int := if negative then -(digitsValue digits : Int) else (digitsValue digits : Int)
    if integer ∧ -9223372036854775808 ≤ n ∧ n ≤ 9223372036854775807 then some (some n) else none
  | _ => none

/-- The members of an object stored one after the other into the response: a
member named `in` or `out` sets its field, so the last one wins; other members
are skipped; an error is remembered and the remaining members are still read. -/
def storeMembers : List (List Char × JShape) → httpPluginResponse × Bool → httpPluginResponse × Bool
  | [], acc => acc
  | (key, shape) :: ms, (res, failed) =>
    if keyIs "in" key then
      match int64Of shape with
      | some (some n) => storeMembers ms ({ res with In := n }, failed)
      | some none => storeMembers ms (res, failed)
      | none => storeMembers ms (res, true)
    else if keyIs "out" key then
      match int64Of shape with
      | some (some n) => storeMembers ms ({ res with Out := n }, failed)
      | some none => storeMembers ms (res, failed)
      | none => storeMembers ms (res, true)
    else
      storeMembers ms (res, failed)

/-- The call `json.NewDecoder(resp.Body).Decode(&res)` on `res := httpPluginResponse{}`:
the decoded struct, or an error for a body without a complete first JSON value,
for a first value that is neither an object nor `null`, and for an object with a
member `in` or `out` that is not `null` and not an integer of the `int64` range. -/
def decodeResponse (body : String) : Except GoError httpPluginResponse :=
  match scanBody body with
  | none => .error ⟨"json: syntax error or unexpected end of input"⟩
  | some (JShape.null, _, _) => .ok ⟨0, 0⟩
  | some (JShape.object, members, _) =>
    match storeMembers members (⟨0, 0⟩, false) with
    | (res, false) => .ok res
    | (_, true) => .error ⟨"json: cannot unmarshal into Go struct field"⟩
  | some (_, _, _) => .error ⟨"json: cannot unmarshal into Go value"⟩

/-- Whether the whole body is one JSON value, with nothing but white space
around it. -/
def wellFormedJSON (body : String) : Bool :=
  match scanBody body with
  | some (_, _, rest) => skipSpace rest == []
  | none => false

/-- The runtime whose decoder is the one of the standard library. -/
def PluginRuntime.withJSON (rt : PluginRuntime) : PluginRuntime :=
  { rt with decode := decodeResponse }

/-- The character of a decimal digit. -/
def digitChar (d : Nat) : Char := Char.ofNat (48 + d)

/-- The decimal digits of a number, most significant first; the first argument
bounds the number of digits. -/
def natDigits : Nat → Nat → List Char
  | 0, _ => []
  | fuel + 1, n =>
    if n < 10 then [digitChar n] else natDigits fuel (n / 10) ++ [digitChar (n % 10)]

/-- The decimal text of a natural number, without leading zeros. -/
def renderNat (n : Nat) : List Char := natDigits (n + 1) n

/-- The decimal text of an integer, without leading zeros. -/
def renderInt (i : Int) : List Char :=
  if i < 0 then '-' :: renderNat i.natAbs else renderNat i.natAbs

/-- A body in the format of the specification's example: an object with the
members `in` and `out`, in this order, one space after each colon and after the
comma, followed by arbitrary text. -/
def exampleBody (i o : Int) (tail : List Char) : String :=
  String.mk (['\x7b', '\x22', 'i', 'n', '\x22', ':', ' '] ++ renderInt i
    ++ [',', ' ', '\x22', 'o', 'u', 't', '\x22', ':', ' '] ++ renderInt o ++ '\x7d' :: tail)

/-! ## config/parsing/node/parse.go -/

/-- The test `strings.HasPrefix(s, pre)`. -/
def HasPrefix (s pre : String) : Bool := pre.toList.isPrefixOf s.toList

/-- Lines 151-157 of `ParseNode`: the host handed to `chain.HostNodeOption`,
computed from `cfg.Host`. The slice `host[1:]` is taken only when the first byte
is the one-byte character `*`, so it drops exactly that character. -/
def nodeHost (cfgHost : String) : String :=
  let host := cfgHost
  if HasPrefix host "*" then
    let host := String.mk (host.toList.drop 1)
    if !HasPrefix host "." then
      "." ++ host
    else
      host
  else
    host

/-- The fields of `config.NodeConfig` that reach the node unchanged or select the
connector and the dialer; `Connector` and `Dialer` hold the `Type` of the
sub-configuration, `none` when the pointer is nil. -/
structure NodeConfig where
  Name : String
  Addr : String
  Host : String
  Protocol : String
  Path : String
  Network : String
  Connector : Option String
  Dialer : Option String
  deriving DecidableEq, Repr

/-- A `chain.Node` as built by `chain.NewNode(name, addr, opts...)`: its name, its
address and the values given by the host, protocol, path and network options. -/
structure Node where
  Name : String
  Addr : String
  Host : String
  Protocol : String
  Path : String
  Network : String
  deriving DecidableEq, Repr

/-- What `ParseNode` takes from outside `parse.go`: the errors of the two
`tls_util.LoadClientConfig` calls (connector, then dialer), whether the
connector and dialer registries know a type, and the errors of the two `Init`
calls. -/
structure ParseRuntime where
  connectorTLS : Option GoError
  connectorRegistered : String → Bool
  connectorInit : Option GoError
  dialerTLS : Option GoError
  dialerRegistered : String → Bool
  dialerInit : Option GoError

/-- The function `ParseNode`: `(nil, nil)` for a nil configuration, `(nil, err)`
when a TLS configuration does not load, a connector or dialer type is not
registered or an `Init` fails, and otherwise the node. -/
def ParseNode (rt : ParseRuntime) (hop : String) (cfg : Option NodeConfig) :
    Except GoError (Option Node) :=
  let _ := hop
  match cfg with
  | none => .ok none
  | some cfg =>
    let connector := cfg.Connector.getD "http"
    let dialer := cfg.Dialer.getD "tcp"
    match rt.connectorTLS with
    | some err => .error err
    | none =>
      if !rt.connectorRegistered connector then
        .error ⟨"unregistered connector: " ++ connector⟩
      else
        match rt.connectorInit with
        | some err => .error err
        | none =>
          match rt.dialerTLS with
          | some err => .error err
          | none =>
            if !rt.dialerRegistered dialer then
              .error ⟨"unregistered dialer: " ++ dialer⟩
            else
              match rt.dialerInit with
              | some err => .error err
              | none =>
                .ok (some
                  { Name := cfg.Name, Addr := cfg.Addr, Host := nodeHost cfg.Host,
                    Protocol := cfg.Protocol, Path := cfg.Path, Network := cfg.Network })

/-! ### Sample data for the wrapper -/

/-- A wrapper just built by `WrapReadWriter` around stream 0 with policy source 1. -/
def sampleWrapper : readWriter :=
  { ReadWriter := ⟨0⟩, rbuf := [], limiter := some ⟨1⟩, limiterIn := none, limiterOut := none,
    expIn := 0, expOut := 0, opts := [], key := "" }

/-- A limiter that releases one byte per `Wait`; the stream has `data` ready. -/
def sampleReadEnv (now : Int) (data : List Byte) : ReadEnv :=
  { now := now
    lookupIn := fun _ _ _ => some ⟨7⟩
    wait := fun _ k => if k = 0 then 0 else 1
    read := fun b => (data.take b.length, none) }

/-- Three reads into a four-byte slice; the first one finds three bytes on the stream. -/
def sampleReadCalls : List ReadCall :=
  [ ⟨[0, 0, 0, 0], sampleReadEnv 1700000000000000000 [10, 20, 30]⟩,
    ⟨[0, 0, 0, 0], sampleReadEnv 1700000001000000000 []⟩,
    ⟨[0, 0, 0, 0], sampleReadEnv 1700000002000000000 []⟩ ]

/-- A limiter that grants at most two bytes per `Wait`; the stream accepts everything. -/
def sampleWriteEnv (now : Int) : WriteEnv :=
  { now := now
    lookupOut := fun _ _ _ => some ⟨8⟩
    wait := fun _ _ k => if k < 2 then k else 2
    write := fun _ chunk => (chunk.length, none) }

/-- A policy source that returns no limiter; the stream accepts everything. -/
def unlimitedWriteEnv (now : Int) : WriteEnv :=
  { now := now
    lookupOut := fun _ _ _ => none
    wait := fun _ _ k => k
    write := fun _ chunk => (chunk.length, none) }

/-- A policy source that returns no limiter; the stream has `data` ready. -/
def unlimitedReadEnv (now : Int) (data : List Byte) : ReadEnv :=
  { now := now
    lookupIn := fun _ _ _ => none
    wait := fun _ k => k
    read := fun b => (data.take b.length, none) }

/-- A wrapper whose input and output limiters were cached at `1700000000` seconds. -/
def sampleCached : readWriter :=
  { ReadWriter := ⟨0⟩, rbuf := [], limiter := some ⟨1⟩, limiterIn := some ⟨5⟩, limiterOut := some ⟨6⟩,
    expIn := 1700000000000000000, expOut := 1700000000000000000, opts := [], key := "" }

/-! ### Sample data for the service -/

/-- A runtime with metrics switched on, the host taken as the text before the
first colon, and every command succeeding except `false`. -/
def sampleRuntime : Runtime :=
  { RecorderServiceClientAddress := "recorder.service.client.address"
    splitHost := fun addr => String.mk (addr.toList.takeWhile (fun ch => ch != ':'))
    trimSpace := fun cmd =>
      String.mk ((cmd.toList.dropWhile (fun ch => ch == ' ')).reverse.dropWhile
        (fun ch => ch == ' ')).reverse
    metric := fun _ => true
    run := fun _ _ cmd => if cmd = "false" then some ⟨"exit status 1"⟩ else none }

/-- A service with an admission policy, three recorder bindings (the second and
third of kind client address) and down commands. -/
def sampleService : defaultService :=
  { name := "svc"
    listener := ⟨1⟩
    handler := ⟨2, true⟩
    options :=
      { admission := some ⟨3⟩
        recorders :=
          [⟨⟨10⟩, "recorder.service.router.dial.address"⟩,
           ⟨⟨11⟩, "recorder.service.client.address"⟩,
           ⟨⟨12⟩, "recorder.service.client.address"⟩]
        preUp := []
        postUp := []
        preDown := [" echo bye ", "  ", "false"]
        postDown := ["echo done"] } }

/-- A temporary accept error (a `net.Error` whose `Temporary()` is true). -/
def sampleTemporary : AcceptOutcome := AcceptOutcome.failure ⟨"too many open files", true, true⟩

/-- An accept error that is not temporary. -/
def sampleFatal : AcceptOutcome := AcceptOutcome.failure ⟨"use of closed network connection", true, false⟩

/-- A connection that is admitted, recorded with an error, and whose handler fails. -/
def sampleAdmitted : AcceptOutcome :=
  AcceptOutcome.conn ⟨1, "192.0.2.1:4000"⟩ (some ⟨"disk full"⟩) true (some ⟨"reset"⟩)

/-- A connection that the admission policy denies. -/
def sampleDenied : AcceptOutcome :=
  AcceptOutcome.conn ⟨2, "198.51.100.7:5000"⟩ none false none

/-! ### Sample data for the quota client -/

/-- A stub endpoint answering `status` with the body `body`; the decoder knows the
one well-formed body of the example, and a limiter is named after its rate. -/
def stubRuntime (status : Int) (body : String) : PluginRuntime :=
  { marshal := fun _ => .ok []
    newRequest := fun url v => .ok ⟨"POST", url, [], v⟩
    doRequest := fun _ _ => .ok ⟨status, body⟩
    decode := fun text =>
      if text = "\x7b\"in\": 1000, \"out\": 500\x7d" then .ok ⟨1000, 500⟩
      else .error ⟨"invalid character"⟩
    NewLimiter := fun r => some ⟨r.toNat⟩ }

/-- A plugin as built by `NewHTTPPlugin`. -/
def samplePlugin : httpPlugin :=
  { url := "http://127.0.0.1:8000/limiter", client := some ⟨1⟩, header := none }

/-- A stub endpoint answering `status` with the body `body`, decoded by the JSON
decoder of the standard library; a limiter is named after its rate. -/
def jsonStub (status : Int) (body : String) : PluginRuntime :=
  (stubRuntime status body).withJSON

/-- The example body of the specification followed by text that is not JSON. -/
def trailingBody : String := "\x7b\"in\": 1000, \"out\": 500\x7d trailing text"

/-- A JSON object whose member `in` is the integer 2^63. -/
def overflowBody : String := "\x7b\"in\": 9223372036854775808, \"out\": 500\x7d"

/-! ### Sample data for node parsing and for the later wrapper theorems -/

/-- A runtime in which every type is registered and nothing fails. -/
def sampleParseRuntime : ParseRuntime :=
  { connectorTLS := none, connectorRegistered := fun _ => true, connectorInit := none,
    dialerTLS := none, dialerRegistered := fun _ => true, dialerInit := none }

/-- A node configuration with the given host. -/
def sampleNodeConfig (host : String) : NodeConfig :=
  { Name := "node-0", Addr := "192.0.2.9:8080", Host := host, Protocol := "", Path := "",
    Network := "", Connector := none, Dialer := none }

/-- An output limiter that grants nothing on its first `Wait` and everything
asked for afterwards; the stream accepts everything. -/
def zeroGrantWriteEnv (now : Int) : WriteEnv :=
  { now := now
    lookupOut := fun _ _ _ => some ⟨8⟩
    wait := fun i _ k => if i = 0 then 0 else k
    write := fun _ chunk => (chunk.length, none) }

/-- The first read of `sampleReadCalls` on a fresh wrapper, then a write of one
byte through `zeroGrantWriteEnv`. -/
def sampleOps : List Op :=
  [ Op.read [0, 0, 0, 0] (sampleReadEnv 1700000000000000000 [10, 20, 30]),
    Op.write 2 [1] (zeroGrantWriteEnv 1700000001000000000) ]

/-- The wrapper after the first read of `sampleOps`: two bytes wait in the overrun
buffer and the input limiter is cached. -/
def overrunWrapper : readWriter :=
  { ReadWriter := ⟨0⟩, rbuf := [20, 30], limiter := some ⟨1⟩, limiterIn := some ⟨7⟩,
    limiterOut := none, expIn := 1700000000000000000, expOut := 0, opts := [], key := "" }

/-! ## Theorems: the rate-limited stream wrapper -/

theorem bytesReadFromUnderlying_append (xs ys : List Event) :
    bytesReadFromUnderlying (xs ++ ys) = bytesReadFromUnderlying xs ++ bytesReadFromUnderlying ys := by
  induction xs with
  | nil => rfl
  | cons e es ih => cases e <;> simp [bytesReadFromUnderlying, ih]

theorem getInLimiter_rbuf (p : readWriter) (env : ReadEnv) :
    (getInLimiter p env).1.rbuf = p.rbuf := by
  unfold getInLimiter
  split
  · split
    · split <;> rfl
    · rfl
  · rfl

theorem getInLimiter_bytes (p : readWriter) (env : ReadEnv) :
    bytesReadFromUnderlying (getInLimiter p env).2.2 = [] := by
  unfold getInLimiter
  split
  · split <;> rfl
  · rfl

theorem getInLimiter_cached (p : readWriter) (env : ReadEnv) :
    (getInLimiter p env).2.1 = (getInLimiter p env).1.limiterIn := by
  unfold getInLimiter
  split
  · split <;> rfl
  · rfl

theorem getInLimiter_none (p : readWriter) (env : ReadEnv)
    (h : (getInLimiter p env).1.limiterIn = none) : p.limiterIn = none := by
  unfold getInLimiter at h
  split at h
  · split at h
    · split at h
      · simp at h
      · exact h
    · exact h
  · exact h

theorem Read_conserves (p : readWriter) (env : ReadEnv) (b : List Byte)
    (hinv : p.limiterIn = none → p.rbuf = [])
    (hwait : ∀ lim k, 0 ≤ env.wait lim k ∧ env.wait lim k ≤ (k : Int)) :
    ∃ r, Read p env b = .ok r ∧
      r.delivered ++ r.p.rbuf = p.rbuf ++ bytesReadFromUnderlying r.events ∧
      (r.p.limiterIn = none → r.p.rbuf = []) := by
  have hr := getInLimiter_rbuf p env
  have hb := getInLimiter_bytes p env
  have hc := getInLimiter_cached p env
  have hn := getInLimiter_none p env
  rcases hg : getInLimiter p env with ⟨p1, lim, ev⟩
  rcases hread : env.read b with ⟨data, err⟩
  rw [hg] at hr hb hc hn
  simp only at hr hb hc hn
  cases lim with
  | none =>
    have hnil : p.rbuf = [] := hinv (hn hc.symm)
    simp [Read, hg, hread, ReadResult.delivered, bytesReadFromUnderlying_append, hb,
      bytesReadFromUnderlying, hnil, hr]
  | some limiter =>
    have hsome : ¬ p1.limiterIn = none := by simp [← hc]
    by_cases hlen : p1.rbuf.length > 0
    · simp only [Read, hg, hlen, if_true]
      generalize hburst : (if p1.rbuf.length < b.length then p1.rbuf.length else b.length) = burst
      have hbl : burst ≤ b.length ∧ burst ≤ p1.rbuf.length := by
        rw [← hburst]; split <;> omega
      obtain ⟨h0, h1⟩ := hwait limiter burst
      have hs : sliceRange b 0 (env.wait limiter burst) = .ok (b.take (env.wait limiter burst).toNat) := by
        unfold sliceRange
        rw [if_pos]
        · simp
        · omega
      rw [hs]
      generalize hg2 : (env.wait limiter burst).toNat = g
      have hgb : g ≤ burst := by omega
      have hne : ¬ p1.rbuf.length = 0 := by omega
      refine ⟨_, rfl, ?_, fun h => absurd h hsome⟩
      simp only [ReadResult.delivered, bufferRead, hne, if_false, bytesReadFromUnderlying_append, hb,
        bytesReadFromUnderlying, List.append_nil, List.nil_append]
      rw [← hr]
      have hmin : min (List.take g b).length p1.rbuf.length = g := by
        simp [List.length_take]; omega
      rw [hmin]
      simp
      rw [List.take_left' (by simp [List.length_take]; omega), List.take_append_drop]
    · have hnil : p1.rbuf = [] := List.length_eq_zero.mp (by omega)
      cases err with
      | some e =>
        simp only [Read, hg, hread, hlen, if_false]
        refine ⟨_, rfl, ?_, fun h => absurd h hsome⟩
        simp [ReadResult.delivered, bytesReadFromUnderlying_append, hb, bytesReadFromUnderlying,
          ← hr, hnil]
      | none =>
        obtain ⟨h0, h1⟩ := hwait limiter data.length
        simp only [Read, hg, hread, hlen, if_false]
        generalize hg2 : env.wait limiter data.length = n at h0 h1
        by_cases hlt : n < (data.length : Int)
        · simp only [hlt, if_true]
          have hs : sliceRange (data ++ List.drop data.length b) n data.length
              = .ok (data.drop n.toNat) := by
            unfold sliceRange
            rw [if_pos]
            · simp
            · simp; omega
          rw [hs]
          refine ⟨_, rfl, ?_, fun h => absurd h hsome⟩
          simp [ReadResult.delivered, bytesReadFromUnderlying_append, hb, bytesReadFromUnderlying,
            ← hr, hnil]
          rw [List.take_append_of_le_length (by omega), List.take_append_drop]
        · simp only [hlt, if_false]
          have hn2 : n.toNat = data.length := by omega
          refine ⟨_, rfl, ?_, fun h => absurd h hsome⟩
          simp [ReadResult.delivered, bytesReadFromUnderlying_append, hb, bytesReadFromUnderlying,
            ← hr, hnil, hn2]

theorem runReads_conserves (calls : List ReadCall) :
    ∀ p : readWriter, (p.limiterIn = none → p.rbuf = []) →
      (∀ c ∈ calls, ∀ lim k, 0 ≤ c.env.wait lim k ∧ c.env.wait lim k ≤ (k : Int)) →
      ∃ t, runReads p calls = .ok t ∧
        t.delivered ++ t.p.rbuf = p.rbuf ++ bytesReadFromUnderlying t.events ∧
        (t.p.limiterIn = none → t.p.rbuf = []) := by
  induction calls with
  | nil => intro p hinv _; exact ⟨_, rfl, by simp [bytesReadFromUnderlying], hinv⟩
  | cons c cs ih =>
    intro p hinv hwait
    obtain ⟨r, hr, hcons, hinv1⟩ := Read_conserves p c.env c.b hinv (hwait c (List.mem_cons_self _ _))
    obtain ⟨t, ht, hcons2, hinv2⟩ := ih r.p hinv1 (fun c1 hc1 => hwait c1 (List.mem_cons_of_mem _ hc1))
    refine ⟨⟨t.p, r.delivered ++ t.delivered, r.events ++ t.events⟩,
      by simp only [runReads, hr, ht], ?_, hinv2⟩
    simp only [bytesReadFromUnderlying_append, List.append_assoc]
    rw [hcons2, ← List.append_assoc, hcons, List.append_assoc]

/-- C1: for every sequence of `Read` calls on a wrapper whose overrun buffer is
empty as long as no input limiter has been cached (true of a wrapper built by
`WrapReadWriter`, and of every wrapper with an active input limiter), where each
`Wait(k)` returns a value between 0 and `k`: no call panics, the bytes returned to
the callers in call order followed by the final overrun buffer equal the initial
overrun buffer followed by all bytes read from the underlying stream in order;
so when the overrun buffer is empty before and after, the bytes delivered equal
the bytes read from the underlying stream. -/
theorem read_delivers_underlying_bytes_in_order (p : readWriter) (calls : List ReadCall)
    (hinv : p.limiterIn = none → p.rbuf = [])
    (hwait : ∀ c ∈ calls, ∀ lim k, 0 ≤ c.env.wait lim k ∧ c.env.wait lim k ≤ (k : Int)) :
    ∃ t, runReads p calls = .ok t ∧
      t.delivered ++ t.p.rbuf = p.rbuf ++ bytesReadFromUnderlying t.events ∧
      (p.rbuf = [] → t.p.rbuf = [] → t.delivered = bytesReadFromUnderlying t.events) := by
  obtain ⟨t, ht, hcons, _⟩ := runReads_conserves calls p hinv hwait
  refine ⟨t, ht, hcons, ?_⟩
  intro h0 h1
  rw [h0, h1] at hcons
  simpa using hcons

theorem sampleReadCalls_wait :
    ∀ c ∈ sampleReadCalls, ∀ lim k, 0 ≤ c.env.wait lim k ∧ c.env.wait lim k ≤ (k : Int) := by
  intro c hc lim k
  simp only [sampleReadCalls, List.mem_cons, List.mem_singleton, List.not_mem_nil, or_false] at hc
  rcases hc with h | h | h <;> subst h <;> simp only [sampleReadEnv] <;> split <;> omega

/-- Witness of C1: a fresh wrapper, a limiter that releases one byte per call, and a
stream that hands over three bytes at once; three reads deliver them one by one. -/
theorem read_delivers_underlying_bytes_in_order_witness :
    (sampleWrapper.limiterIn = none → sampleWrapper.rbuf = []) ∧
    (∀ c ∈ sampleReadCalls, ∀ lim k, 0 ≤ c.env.wait lim k ∧ c.env.wait lim k ≤ (k : Int)) ∧
    (∃ t, runReads sampleWrapper sampleReadCalls = .ok t ∧
      t.delivered ++ t.p.rbuf = sampleWrapper.rbuf ++ bytesReadFromUnderlying t.events ∧
      (sampleWrapper.rbuf = [] → t.p.rbuf = [] → t.delivered = bytesReadFromUnderlying t.events)) :=
  ⟨fun _ => rfl, sampleReadCalls_wait,
    read_delivers_underlying_bytes_in_order sampleWrapper sampleReadCalls (fun _ => rfl)
      sampleReadCalls_wait⟩

theorem sampleReadCalls_run :
    (runReads sampleWrapper sampleReadCalls).toOption.map
        (fun t => (t.delivered, t.p.rbuf, bytesReadFromUnderlying t.events, t.p.limiterIn))
      = some ([10, 20, 30], [], [10, 20, 30], some ⟨7⟩) := by
  decide

theorem sampleReadCalls_first :
    (runReads sampleWrapper (sampleReadCalls.take 1)).toOption.map
        (fun t => (t.delivered, t.p.rbuf, bytesReadFromUnderlying t.events))
      = some ([10], [20, 30], [10, 20, 30]) := by
  decide

theorem wrapInt64_of_range (x : Int) (h0 : -9223372036854775808 ≤ x) (h1 : x < 9223372036854775808) :
    wrapInt64 x = x := by
  unfold wrapInt64
  omega

theorem sliceRange_front (b : List Byte) (g : Int) (h0 : 0 ≤ g) (h1 : g ≤ (b.length : Int)) :
    sliceRange b 0 g = .ok (b.take g.toNat) := by
  unfold sliceRange
  rw [if_pos ⟨le_refl _, h0, h1⟩]
  simp

theorem sliceRange_back (b : List Byte) (k : Int) (h0 : 0 ≤ k) (h1 : k ≤ (b.length : Int)) :
    sliceRange b k b.length = .ok (b.drop k.toNat) := by
  unfold sliceRange
  rw [if_pos ⟨h0, h1, le_refl _⟩]
  simp

theorem writeLoop_complete (rw : ReadWriter) (limiter : Limiter) (env : WriteEnv)
    (hwait : ∀ i k, 0 < k → 1 ≤ env.wait i limiter k ∧ env.wait i limiter k ≤ (k : Int))
    (hwrite : ∀ i chunk, env.write i chunk = ((chunk.length : Int), none)) :
    ∀ (fuel i : Nat) (b : List Byte) (n : Int), b.length ≤ fuel → 0 ≤ n →
      n + (b.length : Int) < 9223372036854775808 →
      ∃ ev, writeLoop rw limiter env fuel i b n = .ok (n + (b.length : Int), none, ev) ∧
        chunksMatchGrants ev ∧ bytesWrittenToUnderlying ev = b := by
  intro fuel
  induction fuel with
  | zero =>
    intro i b n hf _ _
    have hb : b = [] := List.length_eq_zero.mp (by omega)
    subst hb
    exact ⟨[], by simp [writeLoop], trivial, rfl⟩
  | succ fuel ih =>
    intro i b n hf hn hlt
    by_cases hpos : b.length > 0
    · obtain ⟨hg1, hg2⟩ := hwait i b.length hpos
      generalize hg : env.wait i limiter b.length = g at hg1 hg2
      have hchunk : ((b.take g.toNat).length : Int) = g := by
        rw [List.length_take]; omega
      have hrest : (b.drop g.toNat).length = b.length - g.toNat := List.length_drop _ _
      obtain ⟨ev, hev, hm, hw⟩ := ih (i + 1) (b.drop g.toNat) (n + g) (by omega) (by omega) (by omega)
      refine ⟨[Event.wait limiter b.length g, Event.underWrite rw (b.take g.toNat) g none] ++ ev, ?_, ?_, ?_⟩
      · rw [writeLoop]
        simp only [hpos, if_true, hg, sliceRange_front b g (by omega) hg2, hwrite, hchunk,
          sliceRange_back b g (by omega) hg2, wrapInt64_of_range (n + g) (by omega) (by omega), hev]
        simp only [hrest]
        congr 2
        omega
      · exact ⟨hchunk, hm⟩
      · simp [bytesWrittenToUnderlying, hw]
    · have hb : b = [] := List.length_eq_zero.mp (by omega)
      subst hb
      exact ⟨[], by simp [writeLoop], trivial, rfl⟩

theorem getOutLimiter_events (p : readWriter) (env : WriteEnv) :
    (getOutLimiter p env).2.2 = [] ∨
      ∃ tl key opts, (getOutLimiter p env).2.2 = [Event.lookupOut tl key opts] := by
  unfold getOutLimiter
  split
  · split
    · exact Or.inr ⟨_, _, _, rfl⟩
    · exact Or.inl rfl
  · exact Or.inl rfl

theorem getInLimiter_events (p : readWriter) (env : ReadEnv) :
    (getInLimiter p env).2.2 = [] ∨
      ∃ tl key opts, (getInLimiter p env).2.2 = [Event.lookupIn tl key opts] := by
  unfold getInLimiter
  split
  · split
    · exact Or.inr ⟨_, _, _, rfl⟩
    · exact Or.inl rfl
  · exact Or.inl rfl

theorem getOutLimiter_stream (p : readWriter) (env : WriteEnv) :
    (getOutLimiter p env).1.ReadWriter = p.ReadWriter := by
  unfold getOutLimiter
  split
  · split
    · split <;> rfl
    · rfl
  · rfl

theorem getInLimiter_stream (p : readWriter) (env : ReadEnv) :
    (getInLimiter p env).1.ReadWriter = p.ReadWriter := by
  unfold getInLimiter
  split
  · split
    · split <;> rfl
    · rfl
  · rfl

theorem getOutLimiter_input_side (p : readWriter) (env : WriteEnv) :
    (getOutLimiter p env).1.rbuf = p.rbuf ∧ (getOutLimiter p env).1.limiterIn = p.limiterIn := by
  unfold getOutLimiter
  split
  · split
    · split <;> exact ⟨rfl, rfl⟩
    · exact ⟨rfl, rfl⟩
  · exact ⟨rfl, rfl⟩

theorem Write_state (fuel : Nat) (p : readWriter) (env : WriteEnv) (b : List Byte)
    (r : WriteResult) (h : Write fuel p env b = .ok r) : r.p = (getOutLimiter p env).1 := by
  unfold Write at h
  split at h
  · rename_i p1 ev hg
    simp only [Except.ok.injEq] at h
    rw [hg, ← h]
  · rename_i p1 limiter ev hg
    split at h
    · simp at h
    · simp only [Except.ok.injEq] at h
      rw [hg, ← h]

theorem Write_preserves_overrun_invariant (fuel : Nat) (p : readWriter) (env : WriteEnv)
    (b : List Byte) (r : WriteResult) (h : Write fuel p env b = .ok r)
    (hinv : p.limiterIn = none → p.rbuf = []) : r.p.limiterIn = none → r.p.rbuf = [] := by
  rw [Write_state fuel p env b r h, (getOutLimiter_input_side p env).1,
    (getOutLimiter_input_side p env).2]
  exact hinv

theorem WrapReadWriter_overrun_invariant (tl : TrafficLimiter) (rw : ReadWriter) (key : String)
    (opts : List LimiterOption) :
    ∃ p, WrapReadWriter (some tl) rw key opts = WrappedStream.wrapper p ∧ p.rbuf = [] ∧
      p.limiter = some tl := ⟨_, rfl, rfl, rfl⟩

/-- C2: with an active output limiter whose `Wait(k)`, for `k > 0`, grants between
1 and `k`, and an underlying stream whose `Write` accepts every slice whole,
`Write(b)` returns after at most `len(b)` iterations with `(len(b), nil)`; every
underlying `Write` follows a `Wait` and receives exactly the granted number of
bytes, and the slices passed to the underlying stream, concatenated in order,
equal `b`. -/
theorem write_delivers_input_in_granted_chunks (fuel : Nat) (p : readWriter) (env : WriteEnv)
    (b : List Byte) (limiter : Limiter)
    (hactive : (getOutLimiter p env).2.1 = some limiter)
    (hlen : (b.length : Int) < 9223372036854775808)
    (hwait : ∀ i k, 0 < k → 1 ≤ env.wait i limiter k ∧ env.wait i limiter k ≤ (k : Int))
    (hwrite : ∀ i chunk, env.write i chunk = ((chunk.length : Int), none))
    (hfuel : b.length ≤ fuel) :
    ∃ r, Write fuel p env b = .ok r ∧ r.n = (b.length : Int) ∧ r.err = none ∧
      chunksMatchGrants r.events ∧ bytesWrittenToUnderlying r.events = b := by
  have hev := getOutLimiter_events p env
  rcases hg : getOutLimiter p env with ⟨p1, lim, ev0⟩
  rw [hg] at hactive hev
  simp only at hactive hev
  subst hactive
  obtain ⟨ev, hloop, hm, hw⟩ :=
    writeLoop_complete p1.ReadWriter limiter env hwait hwrite fuel 0 b 0 hfuel (le_refl _) (by omega)
  refine ⟨{ n := 0 + (b.length : Int), err := none, p := p1, events := ev0 ++ ev }, ?_, by simp, rfl, ?_, ?_⟩
  · simp only [Write, hg, hloop]
  · rcases hev with h | ⟨tl, key, opts, h⟩ <;> subst h <;> simpa [chunksMatchGrants] using hm
  · rcases hev with h | ⟨tl, key, opts, h⟩ <;> subst h <;> simpa [bytesWrittenToUnderlying] using hw

theorem sampleWriteEnv_wait (now : Int) (limiter : Limiter) :
    ∀ i k, 0 < k → 1 ≤ (sampleWriteEnv now).wait i limiter k ∧
      (sampleWriteEnv now).wait i limiter k ≤ (k : Int) := by
  intro i k hk
  simp only [sampleWriteEnv]
  split <;> omega

/-- Witness of C2: five bytes written through a limiter that grants two bytes at a time. -/
theorem write_delivers_input_in_granted_chunks_witness :
    (getOutLimiter sampleWrapper (sampleWriteEnv 1700000000000000000)).2.1 = some ⟨8⟩ ∧
    (∃ r, Write 5 sampleWrapper (sampleWriteEnv 1700000000000000000) [1, 2, 3, 4, 5] = .ok r ∧
      r.n = (([1, 2, 3, 4, 5] : List Byte).length : Int) ∧ r.err = none ∧
      chunksMatchGrants r.events ∧ bytesWrittenToUnderlying r.events = [1, 2, 3, 4, 5]) :=
  ⟨by decide,
    write_delivers_input_in_granted_chunks 5 sampleWrapper (sampleWriteEnv 1700000000000000000)
      [1, 2, 3, 4, 5] ⟨8⟩ (by decide) (by decide) (sampleWriteEnv_wait _ _) (fun _ _ => rfl)
      (by decide)⟩

theorem sampleWrite_run :
    (Write 5 sampleWrapper (sampleWriteEnv 1700000000000000000) [1, 2, 3, 4, 5]).toOption.map
        (fun r => (r.n, r.err, (underlyingCalls r.events).length, bytesWrittenToUnderlying r.events))
      = some (5, none, 3, [1, 2, 3, 4, 5]) := by
  decide

theorem sampleWrite_short_of_fuel :
    (Write 2 sampleWrapper (sampleWriteEnv 1700000000000000000) [1, 2, 3, 4, 5]).toOption.map
        (fun r => r.n) = none := by
  decide

/-- C3: on a wrapper with a policy source, `getInLimiter` at time `now` compares
the `int64` difference `now - expIn` with 60 seconds. If it is larger, the
`TrafficLimiter` is queried exactly once (`In`, with the wrapper's key and
options), `expIn` becomes `now`, the limiter returned is the looked-up one when
that is non-nil and the previously cached one otherwise, and it is the one cached
from then on. If it is not larger, no call is made, the state is unchanged and the
cached limiter is returned. `getOutLimiter` does the same with `Out`, `expOut` and
`limiterOut`. The `int64` difference is the integer difference whenever that fits
in 64 bits. -/
theorem limiter_cache_refreshes_after_window (p : readWriter) (tl : TrafficLimiter)
    (envR : ReadEnv) (envW : WriteEnv) (hl : p.limiter = some tl) :
    (wrapInt64 (envR.now - p.expIn) > cacheWindow →
      (getInLimiter p envR).2.2 = [Event.lookupIn tl p.key p.opts] ∧
      (getInLimiter p envR).1.expIn = envR.now ∧
      (∀ lim, envR.lookupIn tl p.key p.opts = some lim → (getInLimiter p envR).2.1 = some lim) ∧
      (envR.lookupIn tl p.key p.opts = none → (getInLimiter p envR).2.1 = p.limiterIn) ∧
      (getInLimiter p envR).1.limiterIn = (getInLimiter p envR).2.1 ∧
      (getInLimiter p envR).1.limiterOut = p.limiterOut ∧
      (getInLimiter p envR).1.expOut = p.expOut) ∧
    (¬ wrapInt64 (envR.now - p.expIn) > cacheWindow →
      getInLimiter p envR = (p, p.limiterIn, [])) ∧
    (wrapInt64 (envW.now - p.expOut) > cacheWindow →
      (getOutLimiter p envW).2.2 = [Event.lookupOut tl p.key p.opts] ∧
      (getOutLimiter p envW).1.expOut = envW.now ∧
      (∀ lim, envW.lookupOut tl p.key p.opts = some lim → (getOutLimiter p envW).2.1 = some lim) ∧
      (envW.lookupOut tl p.key p.opts = none → (getOutLimiter p envW).2.1 = p.limiterOut) ∧
      (getOutLimiter p envW).1.limiterOut = (getOutLimiter p envW).2.1 ∧
      (getOutLimiter p envW).1.limiterIn = p.limiterIn ∧
      (getOutLimiter p envW).1.expIn = p.expIn) ∧
    (¬ wrapInt64 (envW.now - p.expOut) > cacheWindow →
      getOutLimiter p envW = (p, p.limiterOut, [])) ∧
    (∀ now exp : Int, -9223372036854775808 ≤ now - exp → now - exp < 9223372036854775808 →
      wrapInt64 (now - exp) = now - exp) := by
  refine ⟨?_, ?_, ?_, ?_, fun now exp h0 h1 => wrapInt64_of_range _ h0 h1⟩
  · intro h
    simp only [getInLimiter, hl, h, if_true]
    refine ⟨trivial, trivial, ?_, ?_, trivial, ?_, ?_⟩
    · intro lim hlim; simp only [hlim]
    · intro hnone; simp only [hnone]
    · split <;> rfl
    · split <;> rfl
  · intro h
    simp only [getInLimiter, hl, h, if_false]
  · intro h
    simp only [getOutLimiter, hl, h, if_true]
    refine ⟨trivial, trivial, ?_, ?_, trivial, ?_, ?_⟩
    · intro lim hlim; simp only [hlim]
    · intro hnone; simp only [hnone]
    · split <;> rfl
    · split <;> rfl
  · intro h
    simp only [getOutLimiter, hl, h, if_false]

/-- Witness of C3: 61 seconds after the last refresh the policy source is asked once
and its answer replaces the cached limiter; when it answers nil the cached limiter
stays; 30 seconds after the last refresh nothing is asked. -/
theorem limiter_cache_refreshes_after_window_witness :
    sampleCached.limiter = some ⟨1⟩ ∧
    ((getInLimiter sampleCached (sampleReadEnv 1700000061000000000 [])).2.2
        = [Event.lookupIn ⟨1⟩ "" []] ∧
      (getInLimiter sampleCached (sampleReadEnv 1700000061000000000 [])).2.1 = some ⟨7⟩) ∧
    (getInLimiter sampleCached (unlimitedReadEnv 1700000061000000000 [])).2.1 = some ⟨5⟩ ∧
    getInLimiter sampleCached (sampleReadEnv 1700000030000000000 [])
      = (sampleCached, some ⟨5⟩, []) ∧
    (getOutLimiter sampleCached (sampleWriteEnv 1700000061000000000)).2.1 = some ⟨8⟩ ∧
    getOutLimiter sampleCached (sampleWriteEnv 1700000060000000000)
      = (sampleCached, some ⟨6⟩, []) :=
  ⟨rfl,
    ⟨((limiter_cache_refreshes_after_window sampleCached ⟨1⟩
        (sampleReadEnv 1700000061000000000 []) (sampleWriteEnv 0) rfl).1 (by decide)).1,
      ((limiter_cache_refreshes_after_window sampleCached ⟨1⟩
        (sampleReadEnv 1700000061000000000 []) (sampleWriteEnv 0) rfl).1 (by decide)).2.2.1 ⟨7⟩ rfl⟩,
    ((limiter_cache_refreshes_after_window sampleCached ⟨1⟩
        (unlimitedReadEnv 1700000061000000000 []) (sampleWriteEnv 0) rfl).1 (by decide)).2.2.2.1 rfl,
    (limiter_cache_refreshes_after_window sampleCached ⟨1⟩
        (sampleReadEnv 1700000030000000000 []) (sampleWriteEnv 0) rfl).2.1 (by decide),
    ((limiter_cache_refreshes_after_window sampleCached ⟨1⟩
        (sampleReadEnv 0 []) (sampleWriteEnv 1700000061000000000) rfl).2.2.1 (by decide)).2.2.1 ⟨8⟩ rfl,
    (limiter_cache_refreshes_after_window sampleCached ⟨1⟩
        (sampleReadEnv 0 []) (sampleWriteEnv 1700000060000000000) rfl).2.2.2.1 (by decide)⟩

/-- C10: a nil `TrafficLimiter` makes `WrapReadWriter` return the stream it was
given; and when the limiter looked up for a direction is nil, `Write(b)`
(respectively `Read(b)`) makes exactly one call on the underlying stream, its
`Write` (`Read`) with `b` itself, and returns the result of that call unchanged,
so the bytes the underlying stream receives are `b`. -/
theorem nil_limiter_passes_through (fuel : Nat) (pw pr : readWriter) (envW : WriteEnv)
    (envR : ReadEnv) (b : List Byte)
    (hw : (getOutLimiter pw envW).2.1 = none) (hr : (getInLimiter pr envR).2.1 = none) :
    (∀ rw key opts, WrapReadWriter none rw key opts = WrappedStream.stream rw) ∧
    (∃ r, Write fuel pw envW b = .ok r ∧
      underlyingCalls r.events
        = [Event.underWrite pw.ReadWriter b (envW.write 0 b).1 (envW.write 0 b).2] ∧
      r.n = (envW.write 0 b).1 ∧ r.err = (envW.write 0 b).2 ∧
      bytesWrittenToUnderlying r.events = b) ∧
    (∃ r, Read pr envR b = .ok r ∧
      underlyingCalls r.events
        = [Event.underRead pr.ReadWriter b (envR.read b).1 (envR.read b).2] ∧
      r.n = ((envR.read b).1.length : Int) ∧ r.err = (envR.read b).2 ∧
      r.b = (envR.read b).1 ++ b.drop (envR.read b).1.length) := by
  refine ⟨fun _ _ _ => rfl, ?_, ?_⟩
  · have hev := getOutLimiter_events pw envW
    have hs := getOutLimiter_stream pw envW
    rcases hg : getOutLimiter pw envW with ⟨p1, lim, ev0⟩
    rcases hwr : envW.write 0 b with ⟨n, err⟩
    rw [hg] at hw hev hs
    simp only at hw hev hs
    subst hw
    refine ⟨{ n := n, err := err, p := p1, events := ev0 ++ [Event.underWrite p1.ReadWriter b n err] },
      by simp only [Write, hg, hwr], ?_, rfl, rfl, ?_⟩
    · rcases hev with h | ⟨tl, key, opts, h⟩ <;> subst h <;> simp [underlyingCalls, hs]
    · rcases hev with h | ⟨tl, key, opts, h⟩ <;> subst h <;> simp [bytesWrittenToUnderlying]
  · have hev := getInLimiter_events pr envR
    have hs := getInLimiter_stream pr envR
    rcases hg : getInLimiter pr envR with ⟨p1, lim, ev0⟩
    rcases hrd : envR.read b with ⟨data, err⟩
    rw [hg] at hr hev hs
    simp only at hr hev hs
    subst hr
    refine ⟨{ n := data.length, err := err, b := data ++ b.drop data.length, p := p1,
              events := ev0 ++ [Event.underRead p1.ReadWriter b data err] },
      by simp only [Read, hg, hrd], ?_, rfl, rfl, rfl⟩
    rcases hev with h | ⟨tl, key, opts, h⟩ <;> subst h <;> simp [underlyingCalls, hs]

/-- Witness of C10: a policy source that answers nil for both directions. -/
theorem nil_limiter_passes_through_witness :
    (getOutLimiter sampleWrapper (unlimitedWriteEnv 1700000000000000000)).2.1 = none ∧
    (getInLimiter sampleWrapper (unlimitedReadEnv 1700000000000000000 [7, 8])).2.1 = none ∧
    (∃ r, Write 0 sampleWrapper (unlimitedWriteEnv 1700000000000000000) [1, 2, 3] = .ok r ∧
      underlyingCalls r.events = [Event.underWrite ⟨0⟩ [1, 2, 3] 3 none] ∧
      r.n = 3 ∧ r.err = none ∧ bytesWrittenToUnderlying r.events = [1, 2, 3]) :=
  ⟨rfl, rfl,
    (nil_limiter_passes_through 0 sampleWrapper sampleWrapper (unlimitedWriteEnv 1700000000000000000)
      (unlimitedReadEnv 1700000000000000000 [7, 8]) [1, 2, 3] rfl rfl).2.1⟩

/-! ## Theorems: the connection-serving engine -/

theorem sleeps_append (xs ys : List SEvent) : sleeps (xs ++ ys) = sleeps xs ++ sleeps ys := by
  induction xs with
  | nil => rfl
  | cons e es ih => cases e <;> simp [sleeps, ih]

theorem acceptCalls_append (xs ys : List SEvent) :
    acceptCalls (xs ++ ys) = acceptCalls xs + acceptCalls ys := by
  induction xs with
  | nil => simp [acceptCalls]
  | cons e es ih => cases e <;> simp [acceptCalls, ih]; omega

theorem sleeps_execCmds (rt : Runtime) (phase : String) (cmds : List String) :
    ∀ i, sleeps (execCmds rt phase i cmds) = [] := by
  induction cmds with
  | nil => intro i; rfl
  | cons c cs ih =>
    intro i
    simp only [execCmds]
    split
    · exact ih _
    · rw [sleeps_append, sleeps_append, ih]
      split <;> rfl

theorem acceptCalls_execCmds (rt : Runtime) (phase : String) (cmds : List String) :
    ∀ i, acceptCalls (execCmds rt phase i cmds) = 0 := by
  induction cmds with
  | nil => intro i; rfl
  | cons c cs ih =>
    intro i
    simp only [execCmds]
    split
    · exact ih _
    · rw [acceptCalls_append, acceptCalls_append, ih]
      split <;> rfl

theorem sleeps_recordClientAddress (rt : Runtime) (ip : String) (err : Option GoError)
    (recs : List RecorderObject) : ∀ i, sleeps (recordClientAddress rt ip err i recs) = [] := by
  induction recs with
  | nil => intro i; rfl
  | cons r rs ih =>
    intro i
    simp only [recordClientAddress]
    split
    · cases err <;> rfl
    · exact ih _

theorem acceptCalls_recordClientAddress (rt : Runtime) (ip : String) (err : Option GoError)
    (recs : List RecorderObject) : ∀ i, acceptCalls (recordClientAddress rt ip err i recs) = 0 := by
  induction recs with
  | nil => intro i; rfl
  | cons r rs ih =>
    intro i
    simp only [recordClientAddress]
    split
    · cases err <;> rfl
    · exact ih _

theorem serveLoop_append (s : defaultService) (rt : Runtime) (pre rest : List AcceptOutcome) :
    ∀ d, (∀ a ∈ pre, a.fatal = false) →
      serveLoop s rt d (pre ++ rest)
        = ⟨(serveLoop s rt d pre).events ++ (serveLoop s rt (delayAfter d pre) rest).events,
            (serveLoop s rt (delayAfter d pre) rest).returned⟩ := by
  induction pre with
  | nil => intro d _; simp [serveLoop, delayAfter]
  | cons a as ih =>
    intro d h
    have hrest : ∀ x ∈ as, x.fatal = false := fun x hx => h x (List.mem_cons_of_mem _ hx)
    cases a with
    | failure e =>
      have hfat := h _ (List.mem_cons_self _ _)
      simp only [AcceptOutcome.fatal, Bool.not_eq_false'] at hfat
      rw [List.cons_append]
      simp only [serveLoop, hfat, if_true, delayAfter, ih _ hrest, List.append_assoc]
    | conn c re al he =>
      rw [List.cons_append]
      simp only [serveLoop, delayAfter, ih _ hrest]
      split
      · split <;> simp only [List.append_assoc]
      · simp only [List.append_assoc]

theorem serveLoop_running (s : defaultService) (rt : Runtime) (pre : List AcceptOutcome) :
    ∀ d, (∀ a ∈ pre, a.fatal = false) → (serveLoop s rt d pre).returned = none := by
  intro d h
  have := serveLoop_append s rt pre [] d h
  rw [List.append_nil] at this
  rw [this]
  simp [serveLoop]

theorem delayAfter_append (pre rest : List AcceptOutcome) :
    ∀ d, delayAfter d (pre ++ rest) = delayAfter (delayAfter d pre) rest := by
  induction pre with
  | nil => intro d; rfl
  | cons a as ih => intro d; cases a <;> simp [delayAfter, ih]

theorem sleeps_serveLoop_temporary (s : defaultService) (rt : Runtime) (temps : List AcceptOutcome) :
    ∀ d, (∀ a ∈ temps, a.temporaryFailure = true) →
      sleeps (serveLoop s rt d temps).events
        = (List.range temps.length).map (fun j => nextDelay^[j + 1] d) := by
  induction temps with
  | nil => intro d _; rfl
  | cons a as ih =>
    intro d h
    have hrest : ∀ x ∈ as, x.temporaryFailure = true := fun x hx => h x (List.mem_cons_of_mem _ hx)
    have ha := h _ (List.mem_cons_self _ _)
    cases a with
    | conn c re al he => simp [AcceptOutcome.temporaryFailure] at ha
    | failure e =>
      simp only [AcceptOutcome.temporaryFailure] at ha
      simp only [serveLoop, ha, if_true, List.cons_append, List.nil_append, sleeps]
      rw [ih _ hrest, List.length_cons, List.range_succ_eq_map, List.map_cons, List.map_map]
      rfl

theorem nextDelay_iterate (j : Nat) :
    nextDelay^[j + 1] 0 = min ((2 : Int) ^ j) 5 * 1000000000 := by
  have h5 : nextDelay (5 * 1000000000) = 5 * 1000000000 := by decide
  have hbig : ∀ k, nextDelay^[k + 4] 0 = 5 * 1000000000 := by
    intro k
    induction k with
    | zero => decide
    | succ k ih => rw [show k + 1 + 4 = (k + 4) + 1 from rfl, Function.iterate_succ_apply', ih, h5]
  rcases Nat.lt_or_ge j 3 with h | h
  · interval_cases j <;> decide
  · obtain ⟨k, rfl⟩ : ∃ k, j = k + 3 := ⟨j - 3, by omega⟩
    rw [hbig k]
    have : (8 : Int) ≤ 2 ^ (k + 3) := by
      have : (2 : Int) ^ (k + 3) = 8 * 2 ^ k := by ring
      have hk : (1 : Int) ≤ 2 ^ k := one_le_pow₀ (by norm_num)
      omega
    rw [min_eq_right (by omega)]

theorem Serve_sleeps (s : defaultService) (rt : Runtime) (outcomes : List AcceptOutcome) :
    sleeps (Serve s rt outcomes).events = sleeps (serveLoop s rt 0 outcomes).events := by
  unfold Serve
  simp only []
  split
  · simp only [sleeps_append, sleeps_execCmds]
    split <;> simp [sleeps]
  · simp only [sleeps_append, sleeps_execCmds, List.nil_append]

/-- C4: after any run of the accept loop that has not ended and that is empty or
ends with a successful accept, a run of consecutive temporary accept errors makes
the loop sleep 1s, 2s, 4s, 5s, 5s, ...: the k-th of them sleeps
`min(2^(k-1), 5)` seconds, and the loop keeps running. Since the preceding run
may itself contain temporary errors, a successful accept resets the delay. -/
theorem accept_backoff_doubles_to_five_seconds (s : defaultService) (rt : Runtime)
    (pre temps : List AcceptOutcome)
    (hpre : ∀ a ∈ pre, a.fatal = false)
    (hlast : pre = [] ∨ ∃ init c re al he, pre = init ++ [AcceptOutcome.conn c re al he])
    (htemps : ∀ a ∈ temps, a.temporaryFailure = true) :
    sleeps (Serve s rt (pre ++ temps)).events
        = sleeps (Serve s rt pre).events
          ++ (List.range temps.length).map (fun j => min ((2 : Int) ^ j) 5 * 1000000000) ∧
      (Serve s rt (pre ++ temps)).returned = none := by
  have hzero : delayAfter 0 pre = 0 := by
    rcases hlast with h | ⟨init, c, re, al, he, h⟩
    · subst h; rfl
    · subst h; rw [delayAfter_append]; rfl
  have hall : ∀ a ∈ pre ++ temps, a.fatal = false := by
    intro a ha
    rcases List.mem_append.mp ha with h | h
    · exact hpre a h
    · have := htemps a h
      cases a with
      | failure e => simpa [AcceptOutcome.fatal, AcceptOutcome.temporaryFailure] using this
      | conn c re al he => rfl
  constructor
  · rw [Serve_sleeps, Serve_sleeps, serveLoop_append s rt pre temps 0 hpre, hzero]
    simp only [sleeps_append, sleeps_serveLoop_temporary s rt temps 0 htemps, nextDelay_iterate]
  · have := serveLoop_running s rt (pre ++ temps) 0 hall
    unfold Serve
    simp only [this]
    split <;> rfl

/-- Witness of C4: two temporary errors, a successful accept, then five temporary errors. -/
theorem accept_backoff_doubles_to_five_seconds_witness :
    (∀ a ∈ [sampleTemporary, sampleTemporary, sampleAdmitted], a.fatal = false) ∧
    (∀ a ∈ List.replicate 5 sampleTemporary, a.temporaryFailure = true) ∧
    sleeps (Serve sampleService sampleRuntime
        ([sampleTemporary, sampleTemporary, sampleAdmitted] ++ List.replicate 5 sampleTemporary)).events
      = sleeps (Serve sampleService sampleRuntime
          [sampleTemporary, sampleTemporary, sampleAdmitted]).events
        ++ (List.range (List.replicate 5 sampleTemporary).length).map
            (fun j => min ((2 : Int) ^ j) 5 * 1000000000) :=
  ⟨by decide, by decide,
    (accept_backoff_doubles_to_five_seconds sampleService sampleRuntime
      [sampleTemporary, sampleTemporary, sampleAdmitted] (List.replicate 5 sampleTemporary)
      (by decide) (Or.inr ⟨[sampleTemporary, sampleTemporary], _, _, _, _, rfl⟩) (by decide)).1⟩

theorem sampleBackoff_run :
    sleeps (Serve sampleService sampleRuntime
        ([sampleTemporary, sampleTemporary, sampleAdmitted] ++ List.replicate 5 sampleTemporary)).events
      = [1000000000, 2000000000, 1000000000, 2000000000, 4000000000, 5000000000, 5000000000] := by
  decide

theorem Serve_returned (s : defaultService) (rt : Runtime) (outcomes : List AcceptOutcome) :
    (Serve s rt outcomes).returned = (serveLoop s rt 0 outcomes).returned := by
  unfold Serve
  simp only []
  split <;> rfl

theorem Serve_acceptCalls (s : defaultService) (rt : Runtime) (outcomes : List AcceptOutcome) :
    acceptCalls (Serve s rt outcomes).events = acceptCalls (serveLoop s rt 0 outcomes).events := by
  unfold Serve
  simp only []
  split
  · simp only [acceptCalls_append, acceptCalls_execCmds]
    split <;> simp [acceptCalls]
  · simp only [acceptCalls_append, acceptCalls_execCmds, Nat.zero_add]

theorem serveLoop_acceptCalls (s : defaultService) (rt : Runtime) (pre : List AcceptOutcome) :
    ∀ d, (∀ a ∈ pre, a.fatal = false) → acceptCalls (serveLoop s rt d pre).events = pre.length := by
  induction pre with
  | nil => intro d _; rfl
  | cons a as ih =>
    intro d h
    have hrest : ∀ x ∈ as, x.fatal = false := fun x hx => h x (List.mem_cons_of_mem _ hx)
    cases a with
    | failure e =>
      have hfat := h _ (List.mem_cons_self _ _)
      simp only [AcceptOutcome.fatal, Bool.not_eq_false'] at hfat
      simp only [serveLoop, hfat, if_true, List.cons_append, List.nil_append, acceptCalls,
        ih _ hrest, List.length_cons]
    | conn c re al he =>
      simp only [serveLoop]
      split
      · split <;>
          simp only [List.append_eq, acceptCalls_append, acceptCalls_recordClientAddress, acceptCalls,
            ih _ hrest, List.length_cons] <;> omega
      · simp only [List.append_eq, acceptCalls_append, acceptCalls_recordClientAddress, acceptCalls,
          ih _ hrest, List.length_cons]
        omega

theorem serveLoop_fatal (s : defaultService) (rt : Runtime) (pre post : List AcceptOutcome)
    (e : AcceptError) (d : Int) (hpre : ∀ a ∈ pre, a.fatal = false) (he : e.isTemporary = false) :
    serveLoop s rt d (pre ++ AcceptOutcome.failure e :: post)
      = ⟨(serveLoop s rt d pre).events ++ [SEvent.accept, SEvent.log .Error "accept: %v"], some e⟩ := by
  rw [serveLoop_append s rt pre _ d hpre]
  simp [serveLoop, he]

theorem serveLoop_returned_split (s : defaultService) (rt : Runtime) (e : AcceptError)
    (outcomes : List AcceptOutcome) :
    ∀ d, (serveLoop s rt d outcomes).returned = some e →
      ∃ pre post, outcomes = pre ++ AcceptOutcome.failure e :: post ∧
        (∀ a ∈ pre, a.fatal = false) ∧ e.isTemporary = false := by
  induction outcomes with
  | nil => intro d h; simp [serveLoop] at h
  | cons a as ih =>
    intro d h
    cases a with
    | failure e1 =>
      by_cases ht : e1.isTemporary = true
      · simp only [serveLoop, ht, if_true] at h
        obtain ⟨pre, post, h1, h2, h3⟩ := ih _ h
        refine ⟨AcceptOutcome.failure e1 :: pre, post, by rw [h1]; rfl, ?_, h3⟩
        intro x hx
        rcases List.mem_cons.mp hx with hx | hx
        · subst hx; simp [AcceptOutcome.fatal, ht]
        · exact h2 x hx
      · simp only [serveLoop, ht] at h
        simp only [Bool.false_eq_true, if_false, Option.some.injEq] at h
        subst h
        exact ⟨[], as, rfl, fun _ hx => absurd hx (List.not_mem_nil _), by simpa using ht⟩
    | conn c re al he =>
      have hr : (serveLoop s rt d (AcceptOutcome.conn c re al he :: as)).returned
          = (serveLoop s rt 0 as).returned := by
        simp only [serveLoop]
        split
        · split <;> rfl
        · rfl
      rw [hr] at h
      obtain ⟨pre, post, h1, h2, h3⟩ := ih _ h
      refine ⟨AcceptOutcome.conn c re al he :: pre, post, by rw [h1]; rfl, ?_, h3⟩
      intro x hx
      rcases List.mem_cons.mp hx with hx | hx
      · subst hx; rfl
      · exact h2 x hx

/-- C5: `Serve` returns `e` exactly when some `Accept` yields the non-temporary
error `e` after outcomes that are all temporary errors or accepted connections
(whatever the recorder, the admission policy and the handler answer for them);
it then makes no further `Accept` call, and what follows in the outcome list
has no effect. When no outcome is a non-temporary error `Serve` has not
returned, and it has made one `Accept` call per outcome. -/
theorem serve_returns_exactly_on_fatal_accept_error (s : defaultService) (rt : Runtime)
    (outcomes : List AcceptOutcome) :
    (∀ e, (Serve s rt outcomes).returned = some e ↔
      ∃ pre post, outcomes = pre ++ AcceptOutcome.failure e :: post ∧
        (∀ a ∈ pre, a.fatal = false) ∧ e.isTemporary = false) ∧
    (∀ pre e post, outcomes = pre ++ AcceptOutcome.failure e :: post →
      (∀ a ∈ pre, a.fatal = false) → e.isTemporary = false →
        Serve s rt outcomes = Serve s rt (pre ++ [AcceptOutcome.failure e]) ∧
        acceptCalls (Serve s rt outcomes).events = pre.length + 1) ∧
    ((∀ a ∈ outcomes, a.fatal = false) →
      (Serve s rt outcomes).returned = none ∧
      acceptCalls (Serve s rt outcomes).events = outcomes.length) := by
  refine ⟨?_, ?_, ?_⟩
  · intro e
    rw [Serve_returned]
    constructor
    · exact serveLoop_returned_split s rt e outcomes 0
    · rintro ⟨pre, post, h1, h2, h3⟩
      rw [h1, serveLoop_fatal s rt pre post e 0 h2 h3]
  · intro pre e post h1 h2 h3
    constructor
    · unfold Serve
      rw [h1, serveLoop_fatal s rt pre post e 0 h2 h3, serveLoop_fatal s rt pre [] e 0 h2 h3]
    · rw [Serve_acceptCalls, h1, serveLoop_fatal s rt pre post e 0 h2 h3, acceptCalls_append,
        serveLoop_acceptCalls s rt pre 0 h2]
      rfl
  · intro h
    rw [Serve_returned, Serve_acceptCalls]
    exact ⟨serveLoop_running s rt outcomes 0 h, serveLoop_acceptCalls s rt outcomes 0 h⟩

/-- Witness of C5: a temporary error, a denied connection and an admitted
connection whose recorder and handler fail, then a fatal error, then more
outcomes that are never reached. -/
theorem serve_returns_exactly_on_fatal_accept_error_witness :
    (∀ a ∈ [sampleTemporary, sampleDenied, sampleAdmitted], a.fatal = false) ∧
    (Serve sampleService sampleRuntime
        ([sampleTemporary, sampleDenied, sampleAdmitted]
          ++ AcceptOutcome.failure ⟨"use of closed network connection", true, false⟩
            :: [sampleAdmitted, sampleTemporary])).returned
      = some ⟨"use of closed network connection", true, false⟩ ∧
    acceptCalls (Serve sampleService sampleRuntime
        ([sampleTemporary, sampleDenied, sampleAdmitted]
          ++ AcceptOutcome.failure ⟨"use of closed network connection", true, false⟩
            :: [sampleAdmitted, sampleTemporary])).events = 4 :=
  ⟨by decide,
    ((serve_returns_exactly_on_fatal_accept_error sampleService sampleRuntime _).1 _).2
      ⟨[sampleTemporary, sampleDenied, sampleAdmitted], [sampleAdmitted, sampleTemporary], rfl,
        by decide, rfl⟩,
    ((serve_returns_exactly_on_fatal_accept_error sampleService sampleRuntime _).2.1
      [sampleTemporary, sampleDenied, sampleAdmitted] ⟨"use of closed network connection", true, false⟩
      [sampleAdmitted, sampleTemporary] rfl (by decide) rfl).2⟩

theorem recordClientAddress_not_go (rt : Runtime) (ip : String) (err : Option GoError)
    (recs : List RecorderObject) :
    ∀ i, ∀ e ∈ recordClientAddress rt ip err i recs, e.isGo = false := by
  induction recs with
  | nil => intro i e he; simp [recordClientAddress] at he
  | cons r rs ih =>
    intro i e he
    simp only [recordClientAddress] at he
    split at he
    · cases err with
      | none =>
        simp only [List.append_nil, List.mem_singleton] at he
        subst he; rfl
      | some x =>
        simp only [List.singleton_append, List.mem_cons, List.not_mem_nil, or_false] at he
        rcases he with he | he <;> subst he <;> rfl
    · exact ih _ e he

/-- C6: when an admission policy is configured and denies an accepted connection,
that iteration of the accept loop calls `Accept`, records the client address,
asks the policy with the connection's remote address, closes the connection and
logs the denial; it starts no goroutine, so `Handle` is not invoked and the
request counter is not incremented for the connection; and the loop goes on to
its next `Accept` with the delay reset. -/
theorem denied_connection_is_closed_unhandled (s : defaultService) (rt : Runtime) (a : Admission)
    (d : Int) (c : Conn) (recordErr handleErr : Option GoError) (rest : List AcceptOutcome)
    (hadm : s.options.admission = some a) :
    serveLoop s rt d (AcceptOutcome.conn c recordErr false handleErr :: rest)
      = ⟨[SEvent.accept]
            ++ recordClientAddress rt (clientIPOf rt c) recordErr 0 s.options.recorders
            ++ [SEvent.admission a c.remoteAddr false, SEvent.connClose c,
                SEvent.log .Debug "admission: %s is denied"]
            ++ (serveLoop s rt 0 rest).events,
          (serveLoop s rt 0 rest).returned⟩ ∧
    (∀ e ∈ [SEvent.accept]
            ++ recordClientAddress rt (clientIPOf rt c) recordErr 0 s.options.recorders
            ++ [SEvent.admission a c.remoteAddr false, SEvent.connClose c,
                SEvent.log .Debug "admission: %s is denied"], e.isGo = false) := by
  constructor
  · simp only [serveLoop, hadm, Bool.not_false, if_true]
  · intro e he
    simp only [List.mem_append, List.mem_singleton, List.mem_cons, List.not_mem_nil, or_false] at he
    rcases he with (he | he) | he | he | he
    · subst he; rfl
    · exact recordClientAddress_not_go rt _ _ _ 0 e he
    · subst he; rfl
    · subst he; rfl
    · subst he; rfl

/-- Witness of C6: the sample service denies the connection from 198.51.100.7. -/
theorem denied_connection_is_closed_unhandled_witness :
    sampleService.options.admission = some ⟨3⟩ ∧
    (serveLoop sampleService sampleRuntime 0 [sampleDenied]).events
      = [SEvent.accept, SEvent.record 1 ⟨11⟩ "198.51.100.7",
         SEvent.admission ⟨3⟩ "198.51.100.7:5000" false, SEvent.connClose ⟨2, "198.51.100.7:5000"⟩,
         SEvent.log .Debug "admission: %s is denied"] :=
  ⟨rfl,
    (congrArg ServeResult.events
      (denied_connection_is_closed_unhandled sampleService sampleRuntime ⟨3⟩ 0
        ⟨2, "198.51.100.7:5000"⟩ none none [] rfl).1).trans (by decide)⟩

theorem recordClientAddress_first (rt : Runtime) (ip : String) (err : Option GoError)
    (pre : List RecorderObject) (r : RecorderObject) (post : List RecorderObject)
    (hr : r.Record = rt.RecorderServiceClientAddress) :
    ∀ i, (∀ x ∈ pre, x.Record ≠ rt.RecorderServiceClientAddress) →
      recordClientAddress rt ip err i (pre ++ r :: post)
        = [SEvent.record (i + pre.length) r.Recorder ip]
          ++ (match err with
              | some _ => [SEvent.log .Error "record %s: %v"]
              | none => []) := by
  induction pre with
  | nil => intro i _; simp [recordClientAddress, hr]
  | cons x xs ih =>
    intro i h
    have hx := h x (List.mem_cons_self _ _)
    rw [List.cons_append]
    simp only [recordClientAddress, hx, if_false]
    rw [ih (i + 1) (fun y hy => h y (List.mem_cons_of_mem _ hy)), List.length_cons]
    congr 3
    omega

theorem recordClientAddress_no_match (rt : Runtime) (ip : String) (err : Option GoError)
    (recs : List RecorderObject) :
    ∀ i, (∀ x ∈ recs, x.Record ≠ rt.RecorderServiceClientAddress) →
      recordClientAddress rt ip err i recs = [] := by
  induction recs with
  | nil => intro i _; rfl
  | cons x xs ih =>
    intro i h
    have hx := h x (List.mem_cons_self _ _)
    simp only [recordClientAddress, hx, if_false]
    exact ih (i + 1) (fun y hy => h y (List.mem_cons_of_mem _ hy))

/-- C7: for an accepted connection, `Record` is called on the first binding whose
kind is `RecorderServiceClientAddress`, with the client IP as payload, and on no
other binding; when no binding has that kind nothing is recorded. Whatever
`Record` answers, the rest of the iteration is the same: the admission policy is
asked if one is configured, and unless it denies the connection the goroutine
calling `Handle` is started, and the loop goes on. -/
theorem only_first_client_address_binding_records (s : defaultService) (rt : Runtime) (d : Int)
    (c : Conn) (recordErr : Option GoError) (allow : Bool) (handleErr : Option GoError)
    (rest : List AcceptOutcome) :
    (∀ pre r post, s.options.recorders = pre ++ r :: post →
      (∀ x ∈ pre, x.Record ≠ rt.RecorderServiceClientAddress) →
      r.Record = rt.RecorderServiceClientAddress →
        recordCalls (recordClientAddress rt (clientIPOf rt c) recordErr 0 s.options.recorders)
          = [SEvent.record pre.length r.Recorder (clientIPOf rt c)]) ∧
    ((∀ x ∈ s.options.recorders, x.Record ≠ rt.RecorderServiceClientAddress) →
      recordClientAddress rt (clientIPOf rt c) recordErr 0 s.options.recorders = []) ∧
    (∃ tail, recordCalls tail = [] ∧
      (∀ err, serveLoop s rt d (AcceptOutcome.conn c err allow handleErr :: rest)
        = ⟨[SEvent.accept]
              ++ recordClientAddress rt (clientIPOf rt c) err 0 s.options.recorders
              ++ tail ++ (serveLoop s rt 0 rest).events,
            (serveLoop s rt 0 rest).returned⟩) ∧
      (∀ a, s.options.admission = some a → SEvent.admission a c.remoteAddr allow ∈ tail) ∧
      (s.options.admission = none ∨ allow = true →
        SEvent.go (handleTask s rt c (clientIPOf rt c) handleErr) ∈ tail)) := by
  refine ⟨?_, ?_, ?_⟩
  · intro pre r post h1 h2 h3
    rw [h1, recordClientAddress_first rt _ recordErr pre r post h3 0 h2]
    cases recordErr <;> simp [recordCalls]
  · exact recordClientAddress_no_match rt _ recordErr _ 0
  · cases hadm : s.options.admission with
    | none =>
      refine ⟨[SEvent.go (handleTask s rt c (clientIPOf rt c) handleErr)], rfl, ?_, ?_, ?_⟩
      · intro err; simp only [serveLoop, hadm]
      · intro a ha; simp at ha
      · intro _; simp
    | some a =>
      cases allow with
      | false =>
        refine ⟨[SEvent.admission a c.remoteAddr false, SEvent.connClose c,
          SEvent.log .Debug "admission: %s is denied"], rfl, ?_, ?_, ?_⟩
        · intro err; simp only [serveLoop, hadm, Bool.not_false, if_true]
        · intro a1 ha; simp only [Option.some.injEq] at ha; subst ha; simp
        · intro h; simp at h
      | true =>
        refine ⟨[SEvent.admission a c.remoteAddr true,
          SEvent.go (handleTask s rt c (clientIPOf rt c) handleErr)], rfl, ?_, ?_, ?_⟩
        · intro err; simp only [serveLoop, hadm, Bool.not_true, Bool.false_eq_true, if_false]
        · intro a1 ha; simp only [Option.some.injEq] at ha; subst ha; simp
        · intro _; simp

/-- Witness of C7: of the two client-address bindings of the sample service only
the first (position 1, recorder 11) records, and the failing `Record` is followed
by admission and by the goroutine that calls `Handle`. -/
theorem only_first_client_address_binding_records_witness :
    sampleService.options.recorders
      = [⟨⟨10⟩, "recorder.service.router.dial.address"⟩]
        ++ ⟨⟨11⟩, "recorder.service.client.address"⟩
          :: [⟨⟨12⟩, "recorder.service.client.address"⟩] ∧
    recordCalls (recordClientAddress sampleRuntime
        (clientIPOf sampleRuntime ⟨1, "192.0.2.1:4000"⟩) (some ⟨"disk full"⟩) 0
        sampleService.options.recorders)
      = [SEvent.record 1 ⟨11⟩ "192.0.2.1"] :=
  ⟨rfl,
    ((only_first_client_address_binding_records sampleService sampleRuntime 0
        ⟨1, "192.0.2.1:4000"⟩ (some ⟨"disk full"⟩) true none []).1
      [⟨⟨10⟩, "recorder.service.router.dial.address"⟩] ⟨⟨11⟩, "recorder.service.client.address"⟩
      [⟨⟨12⟩, "recorder.service.client.address"⟩] rfl (by decide) rfl).trans (by decide)⟩

theorem sampleAdmitted_run :
    (serveLoop sampleService sampleRuntime 0 [sampleAdmitted]).events
      = [SEvent.accept, SEvent.record 1 ⟨11⟩ "192.0.2.1", SEvent.log .Error "record %s: %v",
         SEvent.admission ⟨3⟩ "192.0.2.1:4000" true,
         SEvent.go
          [TaskEvent.counterInc .MetricServiceRequestsCounter "svc" "192.0.2.1",
           TaskEvent.gaugeInc .MetricServiceRequestsInFlightGauge "svc" "192.0.2.1",
           TaskEvent.handle ⟨2, true⟩ ⟨1, "192.0.2.1:4000"⟩,
           TaskEvent.log .Error,
           TaskEvent.counterInc .MetricServiceHandlerErrorsCounter "svc" "192.0.2.1",
           TaskEvent.observe .MetricServiceRequestsDurationObserver "svc",
           TaskEvent.gaugeDec .MetricServiceRequestsInFlightGauge "svc" "192.0.2.1"]] := by
  decide

theorem commandsRun_append (xs ys : List SEvent) :
    commandsRun (xs ++ ys) = commandsRun xs ++ commandsRun ys := by
  induction xs with
  | nil => rfl
  | cons e es ih => cases e <;> simp [commandsRun, ih]

theorem commandsRun_execCmds (rt : Runtime) (phase : String) (cmds : List String) :
    ∀ i, commandsRun (execCmds rt phase i cmds)
      = (cmds.map rt.trimSpace).filter (fun cmd => cmd != "") := by
  induction cmds with
  | nil => intro i; rfl
  | cons c cs ih =>
    intro i
    simp only [execCmds, List.map_cons]
    split
    · rename_i h
      simp [h, ih]
    · rename_i h
      rw [commandsRun_append, commandsRun_append, ih]
      have : commandsRun (match rt.run phase i (rt.trimSpace c) with
          | some _ => [SEvent.log .Warn "[%s] %s: %v"]
          | none => []) = [] := by split <;> rfl
      rw [this]
      simp [commandsRun, List.filter_cons, h]

/-- C8: `Close` runs the pre-down commands, then closes the handler if it is
closeable, then closes the listener, then runs the post-down commands, whatever
the two `Close` calls answer; it returns the listener's answer, never the
handler's. In each phase every command that is not blank after trimming is run,
in order, also after a command that failed. -/
theorem close_runs_hooks_around_handler_and_listener (s : defaultService) (rt : Runtime)
    (handlerErr listenerErr : Option GoError) :
    (Close s rt handlerErr listenerErr).1
      = execCmds rt "pre-down" 0 s.options.preDown
        ++ (if s.handler.closeable then [SEvent.handlerClose s.handler] else [])
        ++ [SEvent.listenerClose s.listener]
        ++ execCmds rt "post-down" 0 s.options.postDown ∧
    (Close s rt handlerErr listenerErr).2 = listenerErr ∧
    commandsRun (Close s rt handlerErr listenerErr).1
      = (s.options.preDown.map rt.trimSpace).filter (fun cmd => cmd != "")
        ++ (s.options.postDown.map rt.trimSpace).filter (fun cmd => cmd != "") := by
  refine ⟨rfl, rfl, ?_⟩
  simp only [Close, commandsRun_append, commandsRun_execCmds]
  split <;> simp [commandsRun]

theorem sampleClose_run :
    Close sampleService sampleRuntime (some ⟨"busy"⟩) (some ⟨"already closed"⟩)
      = ([SEvent.log .Info "echo bye", SEvent.exec "pre-down" "echo bye",
          SEvent.log .Info "false", SEvent.exec "pre-down" "false",
          SEvent.log .Warn "[%s] %s: %v",
          SEvent.handlerClose ⟨2, true⟩, SEvent.listenerClose ⟨1⟩,
          SEvent.log .Info "echo done", SEvent.exec "post-down" "echo done"],
         some ⟨"already closed"⟩) := by
  decide

/-! ## Theorems: the HTTP quota client -/

/-- The paths of `In` and `Out` for an arbitrary decoder: the limiter of the
decoded rate when every step succeeds and the status is 200, nil otherwise. -/
theorem httpPlugin_paths (p : httpPlugin) (rt : PluginRuntime) (key : String)
    (opts : List LimiterOption) :
    (∀ client v req resp res, p.client = some client → rt.marshal (requestOf opts) = .ok v →
      rt.newRequest p.url v = .ok req → rt.doRequest client (p.prepare req) = .ok resp →
      resp.StatusCode = 200 → rt.decode resp.Body = .ok res →
        p.In rt key opts = rt.NewLimiter res.In ∧ p.Out rt key opts = rt.NewLimiter res.Out) ∧
    (∀ client v req resp, p.client = some client → rt.marshal (requestOf opts) = .ok v →
      rt.newRequest p.url v = .ok req → rt.doRequest client (p.prepare req) = .ok resp →
      resp.StatusCode ≠ 200 → p.In rt key opts = none ∧ p.Out rt key opts = none) ∧
    (∀ client v req resp e, p.client = some client → rt.marshal (requestOf opts) = .ok v →
      rt.newRequest p.url v = .ok req → rt.doRequest client (p.prepare req) = .ok resp →
      rt.decode resp.Body = .error e → p.In rt key opts = none ∧ p.Out rt key opts = none) ∧
    (∀ client v req e, p.client = some client → rt.marshal (requestOf opts) = .ok v →
      rt.newRequest p.url v = .ok req → rt.doRequest client (p.prepare req) = .error e →
        p.In rt key opts = none ∧ p.Out rt key opts = none) ∧
    (∀ client v e, p.client = some client → rt.marshal (requestOf opts) = .ok v →
      rt.newRequest p.url v = .error e → p.In rt key opts = none ∧ p.Out rt key opts = none) ∧
    (∀ client e, p.client = some client → rt.marshal (requestOf opts) = .error e →
      p.In rt key opts = none ∧ p.Out rt key opts = none) ∧
    (p.client = none → p.In rt key opts = none ∧ p.Out rt key opts = none) := by
  refine ⟨?_, ?_, ?_, ?_, ?_, ?_, ?_⟩
  · intro client v req resp res hc hm hq hd hs hdec
    simp only [requestOf] at hm
    simp [httpPlugin.In, httpPlugin.Out, hc, hm, hq, hd, hs, hdec, StatusOK]
  · intro client v req resp hc hm hq hd hs
    simp only [requestOf] at hm
    simp [httpPlugin.In, httpPlugin.Out, hc, hm, hq, hd, hs, StatusOK]
  · intro client v req resp e hc hm hq hd hdec
    simp only [requestOf] at hm
    simp [httpPlugin.In, httpPlugin.Out, hc, hm, hq, hd, hdec]
  · intro client v req e hc hm hq hd
    simp only [requestOf] at hm
    simp [httpPlugin.In, httpPlugin.Out, hc, hm, hq, hd]
  · intro client v e hc hm hq
    simp only [requestOf] at hm
    simp [httpPlugin.In, httpPlugin.Out, hc, hm, hq]
  · intro client e hc hm
    simp only [requestOf] at hm
    simp [httpPlugin.In, httpPlugin.Out, hc, hm]
  · intro hc
    simp [httpPlugin.In, httpPlugin.Out, hc]

/-- The stub answering 200 with in 1000 and out 500 yields the limiters of rate
1000 and 500; the stub answering 500 yields nil twice. -/
theorem httpPlugin_paths_stub :
    (samplePlugin.In (stubRuntime 200 "\x7b\"in\": 1000, \"out\": 500\x7d") "" [] = some ⟨1000⟩ ∧
      samplePlugin.Out (stubRuntime 200 "\x7b\"in\": 1000, \"out\": 500\x7d") "" [] = some ⟨500⟩) ∧
    (samplePlugin.In (stubRuntime 500 "") "" [] = none ∧
      samplePlugin.Out (stubRuntime 500 "") "" [] = none) :=
  ⟨(httpPlugin_paths samplePlugin (stubRuntime 200 "\x7b\"in\": 1000, \"out\": 500\x7d")
      "" []).1 ⟨1⟩ [] ⟨"POST", "http://127.0.0.1:8000/limiter", [], []⟩
      ⟨200, "\x7b\"in\": 1000, \"out\": 500\x7d"⟩ ⟨1000, 500⟩ rfl rfl rfl rfl rfl rfl,
    (httpPlugin_paths samplePlugin (stubRuntime 500 "") "" []).2.1 ⟨1⟩ []
      ⟨"POST", "http://127.0.0.1:8000/limiter", [], []⟩ ⟨500, ""⟩ rfl rfl rfl rfl (by decide)⟩

/-! ## Theorems: node parsing -/

theorem HasPrefix_append (pre s : String) : HasPrefix (pre ++ s) pre = true := by
  simp [HasPrefix]

theorem nodeHost_without_star (host : String) (h : HasPrefix host "*" = false) :
    nodeHost host = host := by
  simp [nodeHost, h]

theorem nodeHost_star_dot (s : String) : nodeHost ("*." ++ s) = "." ++ s := by
  have h1 : HasPrefix ("*." ++ s) "*" = true := by simp [HasPrefix]
  have h2 : String.mk (("*." ++ s).toList.drop 1) = "." ++ s := by
    apply String.ext
    simp
  have h3 : HasPrefix ("." ++ s) "." = true := HasPrefix_append "." s
  unfold nodeHost
  simp only [h1, if_true, h2, h3, Bool.not_true, Bool.false_eq_true, if_false]

theorem nodeHost_star_other (s : String) (h : HasPrefix s "." = false) :
    nodeHost ("*" ++ s) = "." ++ s := by
  have h1 : HasPrefix ("*" ++ s) "*" = true := HasPrefix_append "*" s
  have h2 : String.mk (("*" ++ s).toList.drop 1) = s := by
    apply String.ext
    simp
  unfold nodeHost
  simp only [h1, if_true, h2, h, Bool.not_false]

/-- C11: the code at the configured host `*example.com`: `ParseNode` succeeds and
the node's host is `.example.com`, which is not the `example.com` announced by
the comment above the conversion; the hosts `*.example.com` and `example.com`
come out as the comment and the claim say, `.example.com` and `example.com`. -/
theorem parse_node_host_of_star_example :
    ParseNode sampleParseRuntime "hop-0" (some (sampleNodeConfig "*example.com"))
      = .ok (some { Name := "node-0", Addr := "192.0.2.9:8080", Host := ".example.com",
                    Protocol := "", Path := "", Network := "" }) ∧
    nodeHost "*example.com" ≠ "example.com" ∧
    nodeHost "*.example.com" = ".example.com" ∧
    nodeHost "example.com" = "example.com" := by
  refine ⟨rfl, by decide, by decide, by decide⟩

/-! ## Theorems: zero-length calls and lookups of the wrapper -/

theorem writtenChunks_append (xs ys : List Event) :
    writtenChunks (xs ++ ys) = writtenChunks xs ++ writtenChunks ys := by
  induction xs with
  | nil => rfl
  | cons e es ih => cases e <;> simp [writtenChunks, ih]

theorem underlyingCalls_append (xs ys : List Event) :
    underlyingCalls (xs ++ ys) = underlyingCalls xs ++ underlyingCalls ys := by
  induction xs with
  | nil => rfl
  | cons e es ih => cases e <;> simp [underlyingCalls, ih]

theorem lookups_append (xs ys : List Event) : lookups (xs ++ ys) = lookups xs ++ lookups ys := by
  induction xs with
  | nil => rfl
  | cons e es ih => cases e <;> simp [lookups, ih]

theorem writeLoop_events (rw : ReadWriter) (limiter : Limiter) (env : WriteEnv) :
    ∀ (fuel i : Nat) (b : List Byte) (n : Int) (res : Int × Option GoError × List Event),
      writeLoop rw limiter env fuel i b n = .ok res →
        res.2.2 = writeLoopCalls rw limiter env fuel i b := by
  intro fuel
  induction fuel with
  | zero =>
    intro i b n res h
    unfold writeLoop at h
    unfold writeLoopCalls
    split at h
    · simp at h
    · rename_i hlen
      simp only [Except.ok.injEq] at h
      subst h
      simp [hlen]
  | succ fuel ih =>
    intro i b n res h
    unfold writeLoop at h
    unfold writeLoopCalls
    split at h
    · rename_i hlen
      simp only [hlen, if_true]
      simp only [] at h
      cases hs : sliceRange b 0 (env.wait i limiter b.length) with
      | error f => simp [hs] at h
      | ok chunk =>
        rcases hw : env.write i chunk with ⟨nn, err⟩
        simp only [hs, hw] at h ⊢
        cases err with
        | some e =>
          simp only [Except.ok.injEq] at h
          subst h
          rfl
        | none =>
          simp only [] at h ⊢
          cases hs2 : sliceRange b nn b.length with
          | error f => simp [hs2] at h
          | ok rest =>
            simp only [hs2] at h ⊢
            cases hrec : writeLoop rw limiter env fuel (i + 1) rest (wrapInt64 (n + nn)) with
            | error f => simp [hrec] at h
            | ok res2 =>
              simp only [hrec, Except.ok.injEq] at h
              subst h
              simp only []
              rw [ih (i + 1) rest _ res2 hrec]
    · rename_i hlen
      simp only [Except.ok.injEq] at h
      subst h
      simp [hlen]

theorem Write_events (fuel : Nat) (p : readWriter) (env : WriteEnv) (b : List Byte)
    (r : WriteResult) (h : Write fuel p env b = .ok r) : r.events = WriteCalls fuel p env b := by
  unfold Write at h
  unfold WriteCalls
  rcases hg : getOutLimiter p env with ⟨p1, lim, ev⟩
  rw [hg] at h
  cases lim with
  | none =>
    simp only [Except.ok.injEq] at h
    subst h
    rfl
  | some limiter =>
    simp only [] at h ⊢
    cases hl : writeLoop p1.ReadWriter limiter env fuel 0 b 0 with
    | error f => simp [hl] at h
    | ok res =>
      simp only [hl, Except.ok.injEq] at h
      subst h
      simp only []
      rw [writeLoop_events _ _ _ _ _ _ _ res hl]

theorem writeLoopCalls_chunks (rw : ReadWriter) (limiter : Limiter) (env : WriteEnv)
    (hwait : ∀ i k, 0 < k → 1 ≤ env.wait i limiter k ∧ env.wait i limiter k ≤ (k : Int)) :
    ∀ (fuel i : Nat) (b : List Byte),
      ∀ chunk ∈ writtenChunks (writeLoopCalls rw limiter env fuel i b), chunk ≠ [] := by
  intro fuel
  induction fuel with
  | zero =>
    intro i b chunk hc
    unfold writeLoopCalls at hc
    split at hc <;> simp [writtenChunks] at hc
  | succ fuel ih =>
    intro i b chunk hc
    unfold writeLoopCalls at hc
    split at hc
    · rename_i hlen
      obtain ⟨hg1, hg2⟩ := hwait i b.length hlen
      rcases hw : env.write i (List.take (env.wait i limiter b.length).toNat b) with ⟨nn, err⟩
      have hne : List.take (env.wait i limiter b.length).toNat b ≠ [] := by
        intro h0
        have := congrArg List.length h0
        rw [List.length_take] at this
        simp only [List.length_nil] at this
        omega
      simp only [sliceRange_front b _ (by omega) hg2, hw] at hc
      cases err with
      | some e =>
        simp only [writtenChunks, List.mem_singleton] at hc
        subst hc
        exact hne
      | none =>
        simp only [] at hc
        cases hs2 : sliceRange b nn b.length with
        | error f =>
          simp only [hs2, writtenChunks, List.mem_singleton] at hc
          subst hc
          exact hne
        | ok rest =>
          simp only [hs2, writtenChunks_append, writtenChunks, List.mem_append, List.mem_singleton] at hc
          rcases hc with hc | hc
          · subst hc; exact hne
          · exact ih (i + 1) rest chunk hc
    · simp [writtenChunks] at hc

theorem Read_serves_overrun (p : readWriter) (env : ReadEnv) (b : List Byte) (limiter : Limiter)
    (hbuf : p.rbuf ≠ []) (hactive : (getInLimiter p env).2.1 = some limiter)
    (hwait : ∀ lim k, 0 ≤ env.wait lim k ∧ env.wait lim k ≤ (k : Int)) :
    ∃ r, Read p env b = .ok r ∧ underlyingCalls r.events = [] ∧
      r.delivered ++ r.p.rbuf = p.rbuf ∧ r.err = none ∧
      r.n = env.wait limiter (min p.rbuf.length b.length) := by
  have hr := getInLimiter_rbuf p env
  have hev := getInLimiter_events p env
  rcases hg : getInLimiter p env with ⟨p1, lim, ev⟩
  rw [hg] at hr hev hactive
  simp only at hr hev hactive
  subst hactive
  have hlen : p1.rbuf.length > 0 := by
    rw [hr]; exact List.length_pos.mpr hbuf
  have hne : ¬ p1.rbuf.length = 0 := by omega
  have hburst : (if p1.rbuf.length < b.length then p1.rbuf.length else b.length)
      = min p.rbuf.length b.length := by
    rw [hr]; split <;> omega
  simp only [Read, hg, hlen, if_true, hburst]
  obtain ⟨h0, h1⟩ := hwait limiter (min p.rbuf.length b.length)
  generalize hgr : env.wait limiter (min p.rbuf.length b.length) = g at h0 h1
  rw [sliceRange_front b g h0 (by omega)]
  refine ⟨_, rfl, ?_, ?_, ?_, ?_⟩
  · rcases hev with h | ⟨tl, key, opts, h⟩ <;> subst h <;> rfl
  · simp only [ReadResult.delivered, bufferRead, hne, if_false]
    rw [← hr]
    have hmin : min (List.take g.toNat b).length p1.rbuf.length = g.toNat := by
      rw [List.length_take, hr]; omega
    rw [hmin]
    simp
    rw [List.take_left' (by simp [List.length_take]; omega), List.take_append_drop]
  · simp only [bufferRead, hne, if_false]
  · simp only [bufferRead, hne, if_false]
    rw [List.length_take, hr]
    omega

theorem readBuffers_append (xs ys : List Event) :
    readBuffers (xs ++ ys) = readBuffers xs ++ readBuffers ys := by
  induction xs with
  | nil => rfl
  | cons e es ih => cases e <;> simp [readBuffers, ih]

theorem writeLoopCalls_readBuffers (rw : ReadWriter) (limiter : Limiter) (env : WriteEnv) :
    ∀ (fuel i : Nat) (b : List Byte), readBuffers (writeLoopCalls rw limiter env fuel i b) = [] := by
  intro fuel
  induction fuel with
  | zero =>
    intro i b
    unfold writeLoopCalls
    split <;> rfl
  | succ fuel ih =>
    intro i b
    unfold writeLoopCalls
    split
    · cases hs : sliceRange b 0 (env.wait i limiter b.length) with
      | error f => simp only [hs]; rfl
      | ok chunk =>
        rcases hw : env.write i chunk with ⟨nn, err⟩
        cases err with
        | some e => simp only [hs, hw]; rfl
        | none =>
          cases hs2 : sliceRange b nn b.length with
          | error f => simp only [hs, hw, hs2]; rfl
          | ok rest => simp only [hs, hw, hs2, readBuffers_append, ih]; rfl
    · rfl

/-- C12 (amended): in a state whose overrun buffer is not empty, a `Read` with an
active limiter whose `Wait(k)` returns between 0 and `k` returns the granted
number of bytes from the front of that buffer and makes no call on the
underlying stream; and a `Write` with an active limiter whose `Wait(k)`, for
`k > 0`, returns between 1 and `k` never passes an empty slice to the underlying
`Write` and never calls the underlying `Read`, however the call ends. -/
theorem overrun_read_skips_stream_and_granted_writes_are_nonempty (fuel : Nat) (p : readWriter)
    (envR : ReadEnv) (envW : WriteEnv) (bR bW : List Byte) (limIn limOut : Limiter)
    (hbuf : p.rbuf ≠ [])
    (hin : (getInLimiter p envR).2.1 = some limIn)
    (hout : (getOutLimiter p envW).2.1 = some limOut)
    (hwaitR : ∀ lim k, 0 ≤ envR.wait lim k ∧ envR.wait lim k ≤ (k : Int))
    (hwaitW : ∀ i k, 0 < k → 1 ≤ envW.wait i limOut k ∧ envW.wait i limOut k ≤ (k : Int)) :
    (∃ r, Read p envR bR = .ok r ∧ underlyingCalls r.events = [] ∧
      r.delivered ++ r.p.rbuf = p.rbuf ∧ r.err = none ∧
      r.n = envR.wait limIn (min p.rbuf.length bR.length)) ∧
    (∀ chunk ∈ writtenChunks (WriteCalls fuel p envW bW), chunk ≠ []) ∧
    readBuffers (WriteCalls fuel p envW bW) = [] ∧
    (∀ r, Write fuel p envW bW = .ok r → r.events = WriteCalls fuel p envW bW) := by
  refine ⟨Read_serves_overrun p envR bR limIn hbuf hin hwaitR, ?_, ?_,
    fun r hr => Write_events fuel p envW bW r hr⟩
  · have hev := getOutLimiter_events p envW
    rcases hg : getOutLimiter p envW with ⟨p1, lim, ev⟩
    rw [hg] at hout hev
    simp only at hout hev
    subst hout
    intro chunk hc
    simp only [WriteCalls, hg, writtenChunks_append] at hc
    have h0 : writtenChunks ev = [] := by
      rcases hev with h | ⟨tl, key, opts, h⟩ <;> subst h <;> rfl
    rw [h0, List.nil_append] at hc
    exact writeLoopCalls_chunks p1.ReadWriter limOut envW hwaitW fuel 0 bW chunk hc
  · have hev := getOutLimiter_events p envW
    rcases hg : getOutLimiter p envW with ⟨p1, lim, ev⟩
    rw [hg] at hout hev
    simp only at hout hev
    subst hout
    simp only [WriteCalls, hg, readBuffers_append, writeLoopCalls_readBuffers, List.append_nil]
    rcases hev with h | ⟨tl, key, opts, h⟩ <;> subst h <;> rfl

theorem sampleReadEnv_wait (now : Int) (data : List Byte) :
    ∀ lim k, 0 ≤ (sampleReadEnv now data).wait lim k ∧
      (sampleReadEnv now data).wait lim k ≤ (k : Int) := by
  intro lim k
  simp only [sampleReadEnv]
  split <;> omega

/-- Witness of C12 (amended): with two bytes in the overrun buffer, a read through
a limiter that releases one byte returns the byte 20 and leaves the stream
alone, and a write of five bytes in grants of two passes the slices of length
2, 2 and 1. -/
theorem overrun_read_skips_stream_and_granted_writes_are_nonempty_witness :
    overrunWrapper.rbuf ≠ [] ∧
    (getInLimiter overrunWrapper (sampleReadEnv 1700000001000000000 [])).2.1 = some ⟨7⟩ ∧
    (getOutLimiter overrunWrapper (sampleWriteEnv 1700000001000000000)).2.1 = some ⟨8⟩ ∧
    (∃ r, Read overrunWrapper (sampleReadEnv 1700000001000000000 []) [0, 0, 0, 0] = .ok r ∧
      underlyingCalls r.events = [] ∧ r.delivered ++ r.p.rbuf = overrunWrapper.rbuf ∧
      r.err = none ∧
      r.n = (sampleReadEnv 1700000001000000000 []).wait ⟨7⟩
        (min overrunWrapper.rbuf.length ([0, 0, 0, 0] : List Byte).length)) ∧
    writtenChunks (WriteCalls 5 overrunWrapper (sampleWriteEnv 1700000001000000000) [1, 2, 3, 4, 5])
      = [[1, 2], [3, 4], [5]] :=
  ⟨by decide, by decide, by decide,
    (overrun_read_skips_stream_and_granted_writes_are_nonempty 5 overrunWrapper
      (sampleReadEnv 1700000001000000000 []) (sampleWriteEnv 1700000001000000000) [0, 0, 0, 0]
      [1, 2, 3, 4, 5] ⟨7⟩ ⟨8⟩ (by decide) (by decide) (by decide) (sampleReadEnv_wait _ _)
      (sampleWriteEnv_wait _ _)).1,
    by decide⟩

theorem zeroGrantWriteEnv_wait (now : Int) :
    ∀ i lim k, 0 ≤ (zeroGrantWriteEnv now).wait i lim k ∧
      (zeroGrantWriteEnv now).wait i lim k ≤ (k : Int) := by
  intro i lim k
  simp only [zeroGrantWriteEnv]
  split <;> omega

/-- C12, counterexample: a wrapper built by `WrapReadWriter` reads three bytes from
its stream while the limiter releases one, so that two bytes stay in the overrun
buffer; a `Write` of one byte follows, with an active output limiter whose
`Wait(k)` always returns between 0 and `k` and returns 0 the first time. The
underlying `Write` is called with an empty slice, then with the byte, while the
overrun buffer still holds its two bytes. -/
theorem zero_grant_write_passes_empty_slice :
    WrapReadWriter (some ⟨1⟩) ⟨0⟩ "" [] = WrappedStream.wrapper sampleWrapper ∧
    (runOps sampleWrapper (sampleOps.take 1)).toOption.map (fun t => t.p.rbuf) = some [20, 30] ∧
    (runOps sampleWrapper (sampleOps.take 1)).toOption.map
        (fun t => (getOutLimiter t.p (zeroGrantWriteEnv 1700000001000000000)).2.1)
      = some (some ⟨8⟩) ∧
    (∀ i lim k, 0 ≤ (zeroGrantWriteEnv 1700000001000000000).wait i lim k ∧
      (zeroGrantWriteEnv 1700000001000000000).wait i lim k ≤ (k : Int)) ∧
    (runOps sampleWrapper sampleOps).toOption.map (fun t => (t.p.rbuf, writtenChunks t.events))
      = some ([20, 30], [[], [1]]) :=
  ⟨rfl, by decide, by decide, zeroGrantWriteEnv_wait _, by decide⟩

theorem overrunWrapper_reached :
    (runOps sampleWrapper (sampleOps.take 1)).toOption.map (fun t => t.p) = some overrunWrapper :=
  rfl

theorem getInLimiter_fields (p : readWriter) (env : ReadEnv) :
    (getInLimiter p env).1.key = p.key ∧ (getInLimiter p env).1.opts = p.opts ∧
      (getInLimiter p env).1.limiter = p.limiter := by
  unfold getInLimiter
  split
  · split
    · split <;> exact ⟨rfl, rfl, rfl⟩
    · exact ⟨rfl, rfl, rfl⟩
  · exact ⟨rfl, rfl, rfl⟩

theorem getOutLimiter_fields (p : readWriter) (env : WriteEnv) :
    (getOutLimiter p env).1.key = p.key ∧ (getOutLimiter p env).1.opts = p.opts ∧
      (getOutLimiter p env).1.limiter = p.limiter := by
  unfold getOutLimiter
  split
  · split
    · split <;> exact ⟨rfl, rfl, rfl⟩
    · exact ⟨rfl, rfl, rfl⟩
  · exact ⟨rfl, rfl, rfl⟩

theorem getInLimiter_lookup (p : readWriter) (env : ReadEnv) (tl : TrafficLimiter)
    (h : p.limiter = some tl) :
    ∀ e ∈ (getInLimiter p env).2.2, e = Event.lookupIn tl p.key p.opts := by
  intro e he
  simp only [getInLimiter, h] at he
  split at he
  · simpa using he
  · simp at he

theorem getOutLimiter_lookup (p : readWriter) (env : WriteEnv) (tl : TrafficLimiter)
    (h : p.limiter = some tl) :
    ∀ e ∈ (getOutLimiter p env).2.2, e = Event.lookupOut tl p.key p.opts := by
  intro e he
  simp only [getOutLimiter, h] at he
  split at he
  · simpa using he
  · simp at he

theorem Read_shape (p : readWriter) (env : ReadEnv) (b : List Byte) (r : ReadResult)
    (h : Read p env b = .ok r) :
    r.p.key = p.key ∧ r.p.opts = p.opts ∧ r.p.limiter = p.limiter ∧
      lookups r.events = (getInLimiter p env).2.2 := by
  have hf := getInLimiter_fields p env
  have hev := getInLimiter_events p env
  rcases hg : getInLimiter p env with ⟨p1, lim, ev⟩
  rcases hread : env.read b with ⟨data, err⟩
  rw [hg] at hf hev
  simp only at hf hev
  obtain ⟨hk, ho, hl⟩ := hf
  have hlook : lookups ev = ev := by
    rcases hev with h0 | ⟨tl, key, opts, h0⟩ <;> subst h0 <;> rfl
  cases lim with
  | none =>
    simp only [Read, hg, hread, Except.ok.injEq] at h
    subst h
    exact ⟨hk, ho, hl, by simp [lookups_append, hlook, lookups]⟩
  | some limiter =>
    by_cases hlen : p1.rbuf.length > 0
    · simp only [Read, hg, hlen, if_true] at h
      split at h
      · simp at h
      · simp only [Except.ok.injEq] at h
        subst h
        exact ⟨hk, ho, hl, by simp [lookups_append, hlook, lookups]⟩
    · cases err with
      | some e =>
        simp only [Read, hg, hread, hlen, if_false, Except.ok.injEq] at h
        subst h
        exact ⟨hk, ho, hl, by simp [lookups_append, hlook, lookups]⟩
      | none =>
        simp only [Read, hg, hread, hlen, if_false] at h
        split at h
        · split at h
          · simp at h
          · simp only [Except.ok.injEq] at h
            subst h
            exact ⟨hk, ho, hl, by simp [lookups_append, hlook, lookups]⟩
        · simp only [Except.ok.injEq] at h
          subst h
          exact ⟨hk, ho, hl, by simp [lookups_append, hlook, lookups]⟩

theorem writeLoopCalls_lookups (rw : ReadWriter) (limiter : Limiter) (env : WriteEnv) :
    ∀ (fuel i : Nat) (b : List Byte), lookups (writeLoopCalls rw limiter env fuel i b) = [] := by
  intro fuel
  induction fuel with
  | zero =>
    intro i b
    unfold writeLoopCalls
    split <;> rfl
  | succ fuel ih =>
    intro i b
    unfold writeLoopCalls
    split
    · cases hs : sliceRange b 0 (env.wait i limiter b.length) with
      | error f => simp only [hs]; rfl
      | ok chunk =>
        rcases hw : env.write i chunk with ⟨nn, err⟩
        cases err with
        | some e => simp only [hs, hw]; rfl
        | none =>
          cases hs2 : sliceRange b nn b.length with
          | error f => simp only [hs, hw, hs2]; rfl
          | ok rest => simp only [hs, hw, hs2, lookups_append, ih]; rfl
    · rfl

theorem Write_shape (fuel : Nat) (p : readWriter) (env : WriteEnv) (b : List Byte)
    (r : WriteResult) (h : Write fuel p env b = .ok r) :
    r.p.key = p.key ∧ r.p.opts = p.opts ∧ r.p.limiter = p.limiter ∧
      lookups r.events = (getOutLimiter p env).2.2 := by
  have hf := getOutLimiter_fields p env
  have hev := getOutLimiter_events p env
  have hst := Write_state fuel p env b r h
  have hevs := Write_events fuel p env b r h
  refine ⟨by rw [hst]; exact hf.1, by rw [hst]; exact hf.2.1, by rw [hst]; exact hf.2.2, ?_⟩
  rw [hevs]
  unfold WriteCalls
  rcases hg : getOutLimiter p env with ⟨p1, lim, ev⟩
  rw [hg] at hev
  simp only at hev
  have hlook : lookups ev = ev := by
    rcases hev with h0 | ⟨tl, key, opts, h0⟩ <;> subst h0 <;> rfl
  cases lim with
  | none => simp [lookups_append, hlook, lookups]
  | some limiter => simp [lookups_append, hlook, writeLoopCalls_lookups]

theorem lookupsIssued_keyed (tl : TrafficLimiter) (key : String) (opts : List LimiterOption)
    (ops : List Op) :
    ∀ p : readWriter, p.limiter = some tl → p.key = key → p.opts = opts →
      ∀ e ∈ lookupsIssued p ops, e = Event.lookupIn tl key opts ∨ e = Event.lookupOut tl key opts := by
  induction ops with
  | nil => intro p _ _ _ e he; simp [lookupsIssued] at he
  | cons op ops ih =>
    intro p hl hk ho e he
    cases op with
    | read b env =>
      simp only [lookupsIssued, List.mem_append] at he
      rcases he with he | he
      · left
        rw [← hk, ← ho]
        exact getInLimiter_lookup p env tl hl e he
      · cases hr : Read p env b with
        | error f => simp [hr] at he
        | ok r =>
          simp only [hr] at he
          obtain ⟨h1, h2, h3, _⟩ := Read_shape p env b r hr
          exact ih r.p (h3.trans hl) (h1.trans hk) (h2.trans ho) e he
    | write fuel b env =>
      simp only [lookupsIssued, List.mem_append] at he
      rcases he with he | he
      · right
        rw [← hk, ← ho]
        exact getOutLimiter_lookup p env tl hl e he
      · cases hr : Write fuel p env b with
        | error f => simp [hr] at he
        | ok r =>
          simp only [hr] at he
          obtain ⟨h1, h2, h3, _⟩ := Write_shape fuel p env b r hr
          exact ih r.p (h3.trans hl) (h1.trans hk) (h2.trans ho) e he

theorem runOps_lookups (ops : List Op) :
    ∀ (p : readWriter) (t : OpsTrace), runOps p ops = .ok t →
      lookups t.events = lookupsIssued p ops := by
  induction ops with
  | nil =>
    intro p t h
    simp only [runOps, Except.ok.injEq] at h
    subst h
    rfl
  | cons op ops ih =>
    intro p t h
    cases op with
    | read b env =>
      cases hr : Read p env b with
      | error f => simp [runOps, hr] at h
      | ok r =>
        cases ht : runOps r.p ops with
        | error f => simp [runOps, hr, ht] at h
        | ok t1 =>
          simp only [runOps, hr, ht, Except.ok.injEq] at h
          subst h
          simp only [lookupsIssued, hr, lookups_append, ih r.p t1 ht,
            (Read_shape p env b r hr).2.2.2]
    | write fuel b env =>
      cases hr : Write fuel p env b with
      | error f => simp [runOps, hr] at h
      | ok r =>
        cases ht : runOps r.p ops with
        | error f => simp [runOps, hr, ht] at h
        | ok t1 =>
          simp only [runOps, hr, ht, Except.ok.injEq] at h
          subst h
          simp only [lookupsIssued, hr, lookups_append, ih r.p t1 ht,
            (Write_shape fuel p env b r hr).2.2.2]

/-- C13: the key handed to `WrapReadWriter` is dropped: for any two keys the
function returns the same value, so the two wrappers behave alike in every
respect; and along every sequence of `Read` and `Write` calls on the wrapper,
each lookup it issues is `In` or `Out` on the given `TrafficLimiter` with the
empty key and the given options. The lookups recorded in the trace of a
sequence of calls that all return are exactly these. -/
theorem wrapper_lookups_ignore_key (limiter : Option TrafficLimiter) (tl : TrafficLimiter)
    (rw : ReadWriter) (k1 k2 : String) (opts : List LimiterOption) (ops : List Op) :
    WrapReadWriter limiter rw k1 opts = WrapReadWriter limiter rw k2 opts ∧
    ∃ p, WrapReadWriter (some tl) rw k1 opts = WrappedStream.wrapper p ∧
      WrapReadWriter (some tl) rw k2 opts = WrappedStream.wrapper p ∧
      (∀ e ∈ lookupsIssued p ops,
        e = Event.lookupIn tl "" opts ∨ e = Event.lookupOut tl "" opts) ∧
      (∀ t, runOps p ops = .ok t → lookups t.events = lookupsIssued p ops) := by
  refine ⟨by cases limiter <;> rfl, _, rfl, rfl, ?_, ?_⟩
  · exact lookupsIssued_keyed tl "" opts ops _ rfl rfl rfl
  · exact runOps_lookups ops _

/-- Witness of C13: wrappers built with the keys `alice` and `bob` are the same
wrapper, and the lookups of a read followed by a write carry the empty key. -/
theorem wrapper_lookups_ignore_key_witness :
    WrapReadWriter (some ⟨1⟩) ⟨0⟩ "alice" [] = WrapReadWriter (some ⟨1⟩) ⟨0⟩ "bob" [] ∧
    WrapReadWriter (some ⟨1⟩) ⟨0⟩ "alice" [] = WrappedStream.wrapper sampleWrapper ∧
    lookupsIssued sampleWrapper sampleOps
      = [Event.lookupIn ⟨1⟩ "" [], Event.lookupOut ⟨1⟩ "" []] :=
  ⟨(wrapper_lookups_ignore_key (some ⟨1⟩) ⟨1⟩ ⟨0⟩ "alice" "bob" [] sampleOps).1, rfl, rfl⟩

/-! ## Theorems: the HTTP quota client and the JSON decoder -/

/-- C9, counterexample: at status 200, a body that is not well-formed JSON (the
example object followed by other text) makes `In` and `Out` return the limiters
of rate 1000 and 500, not nil; and a well-formed JSON object whose members `in`
and `out` are the integers 2^63 and 500 makes both return nil. -/
theorem http_quota_client_body_counterexample :
    (wellFormedJSON trailingBody = false ∧
      samplePlugin.In (jsonStub 200 trailingBody) "" [] = some ⟨1000⟩ ∧
      samplePlugin.Out (jsonStub 200 trailingBody) "" [] = some ⟨500⟩) ∧
    (wellFormedJSON overflowBody = true ∧
      (scanBody overflowBody).map (fun r => (r.1, r.2.1))
        = some (JShape.object,
            [("in".toList, JShape.number false "9223372036854775808".toList true),
             ("out".toList, JShape.number false "500".toList true)]) ∧
      samplePlugin.In (jsonStub 200 overflowBody) "" [] = none ∧
      samplePlugin.Out (jsonStub 200 overflowBody) "" [] = none) := by
  refine ⟨⟨by decide, by decide, by decide⟩, by decide, by decide, by decide, by decide⟩

theorem digitChar_isDigit (d : Nat) (h : d < 10) :
    (digitChar d).isDigit = true ∧ (digitChar d).toNat - 48 = d := by
  interval_cases d <;> exact ⟨by decide, by decide⟩

theorem digitChar_zero (d : Nat) (h : d < 10) (h0 : digitChar d = '0') : d = 0 := by
  interval_cases d <;> first | rfl | exact absurd h0 (by decide)

theorem digitsValue_append (xs : List Char) (c : Char) :
    digitsValue (xs ++ [c]) = 10 * digitsValue xs + (c.toNat - 48) := by
  simp [digitsValue, List.foldl_append]

theorem natDigits_spec : ∀ (fuel n : Nat), n < fuel →
    digitsValue (natDigits fuel n) = n ∧ (∀ c ∈ natDigits fuel n, c.isDigit = true) ∧
      ∃ c r, natDigits fuel n = c :: r ∧ (c = '0' → n = 0 ∧ r = []) := by
  intro fuel
  induction fuel with
  | zero => intro n h; omega
  | succ fuel ih =>
    intro n h
    unfold natDigits
    by_cases h10 : n < 10
    · simp only [h10, if_true]
      refine ⟨?_, ?_, _, _, rfl, ?_⟩
      · simp [digitsValue, (digitChar_isDigit n h10).2]
      · intro c hc
        simp only [List.mem_singleton] at hc
        subst hc
        exact (digitChar_isDigit n h10).1
      · intro h0
        exact ⟨digitChar_zero n h10 h0, rfl⟩
    · simp only [h10, if_false]
      have hdiv : n / 10 < fuel := by omega
      obtain ⟨hv, hd, c, r, hcr, hz⟩ := ih (n / 10) hdiv
      have hmod : n % 10 < 10 := Nat.mod_lt _ (by omega)
      refine ⟨?_, ?_, c, r ++ [digitChar (n % 10)], by rw [hcr]; rfl, ?_⟩
      · rw [digitsValue_append, hv, (digitChar_isDigit _ hmod).2]
        omega
      · intro x hx
        rcases List.mem_append.mp hx with hx | hx
        · exact hd x hx
        · simp only [List.mem_singleton] at hx
          subst hx
          exact (digitChar_isDigit _ hmod).1
      · intro h0
        have := (hz h0).1
        omega

theorem takeWhile_digits (ds : List Char) (c0 : Char) (rest : List Char)
    (hds : ∀ c ∈ ds, c.isDigit = true) (hc0 : c0.isDigit = false) :
    (ds ++ c0 :: rest).takeWhile Char.isDigit = ds ∧
      (ds ++ c0 :: rest).dropWhile Char.isDigit = c0 :: rest := by
  induction ds with
  | nil => simp [List.takeWhile, List.dropWhile, hc0]
  | cons d ds ih =>
    have hd := hds d (List.mem_cons_self _ _)
    have := ih (fun c hc => hds c (List.mem_cons_of_mem _ hc))
    simp [List.takeWhile, List.dropWhile, hd, this.1, this.2]

theorem scanFraction_end (negative : Bool) (digits : List Char) (c0 : Char) (rest : List Char)
    (hc0 : c0 = ',' ∨ c0 = '\x7d') :
    scanFraction negative digits (c0 :: rest)
      = some (JShape.number negative digits true, c0 :: rest) := by
  rcases hc0 with h | h <;> subst h <;> simp [scanFraction, scanExponent]

theorem scanNumber_digits (c : Char) (r : List Char) (c0 : Char) (rest : List Char)
    (hd : ∀ x ∈ c :: r, x.isDigit = true) (hz : c = '0' → r = [])
    (hc0 : c0 = ',' ∨ c0 = '\x7d') :
    scanNumber (c :: r ++ c0 :: rest) = some (JShape.number false (c :: r) true, c0 :: rest) ∧
    scanNumber ('-' :: (c :: r ++ c0 :: rest))
      = some (JShape.number true (c :: r) true, c0 :: rest) := by
  have hc : c.isDigit = true := hd c (List.mem_cons_self _ _)
  have hminus : c ≠ '-' := by
    intro h; subst h; exact absurd hc (by decide)
  have hc0d : c0.isDigit = false := by
    rcases hc0 with h | h <;> subst h <;> decide
  have htw := takeWhile_digits r c0 rest (fun x hx => hd x (List.mem_cons_of_mem _ hx)) hc0d
  have hbody : (if c = '0' then scanFraction false ['0'] (r ++ c0 :: rest)
      else if c.isDigit = true then
        scanFraction false (c :: (r ++ c0 :: rest).takeWhile Char.isDigit)
          ((r ++ c0 :: rest).dropWhile Char.isDigit)
      else none) = some (JShape.number false (c :: r) true, c0 :: rest) := by
    by_cases h0 : c = '0'
    · have hr := hz h0
      subst hr
      subst h0
      simp only [if_true, List.nil_append]
      exact scanFraction_end false ['0'] c0 rest hc0
    · simp only [h0, if_false, hc, if_true, htw.1, htw.2]
      exact scanFraction_end false (c :: r) c0 rest hc0
  have hbody2 : (if c = '0' then scanFraction true ['0'] (r ++ c0 :: rest)
      else if c.isDigit = true then
        scanFraction true (c :: (r ++ c0 :: rest).takeWhile Char.isDigit)
          ((r ++ c0 :: rest).dropWhile Char.isDigit)
      else none) = some (JShape.number true (c :: r) true, c0 :: rest) := by
    by_cases h0 : c = '0'
    · have hr := hz h0
      subst hr
      subst h0
      simp only [if_true, List.nil_append]
      exact scanFraction_end true ['0'] c0 rest hc0
    · simp only [h0, if_false, hc, if_true, htw.1, htw.2]
      exact scanFraction_end true (c :: r) c0 rest hc0
  constructor
  · simp only [scanNumber, List.cons_append, List.head?_cons]
    have : (some c == some '-') = false := by simp [hminus]
    simp only [this, Bool.false_eq_true, if_false]
    exact hbody
  · simp only [scanNumber, List.cons_append, List.head?_cons]
    have : ((some '-' : Option Char) == some '-') = true := by decide
    simp only [this, if_true, List.drop_succ_cons, List.drop_zero]
    exact hbody2

theorem isDigit_not_special (c : Char) (h : c.isDigit = true) :
    jsonSpace c = false ∧ c ≠ '\x7b' ∧ c ≠ '[' ∧ c ≠ '\x22' := by
  refine ⟨?_, ?_, ?_, ?_⟩
  · simp only [jsonSpace, Bool.or_eq_false_iff, beq_eq_false_iff_ne, ne_eq]
    refine ⟨⟨⟨?_, ?_⟩, ?_⟩, ?_⟩ <;> (intro h0; subst h0; exact absurd h (by decide))
  · intro h0; subst h0; exact absurd h (by decide)
  · intro h0; subst h0; exact absurd h (by decide)
  · intro h0; subst h0; exact absurd h (by decide)

theorem scan_value_digits (fuel depth : Nat) (c : Char) (r : List Char) (c0 : Char)
    (rest : List Char) (hd : ∀ x ∈ c :: r, x.isDigit = true) (hz : c = '0' → r = [])
    (hc0 : c0 = ',' ∨ c0 = '\x7d') :
    scan (fuel + 1) depth ScanMode.value (' ' :: (c :: r ++ c0 :: rest))
        = some (JShape.number false (c :: r) true, [], c0 :: rest) ∧
    scan (fuel + 1) depth ScanMode.value (' ' :: '-' :: (c :: r ++ c0 :: rest))
        = some (JShape.number true (c :: r) true, [], c0 :: rest) := by
  have hc : c.isDigit = true := hd c (List.mem_cons_self _ _)
  obtain ⟨hsp, h1, h2, h3⟩ := isDigit_not_special c hc
  obtain ⟨hn1, hn2⟩ := scanNumber_digits c r c0 rest hd hz hc0
  constructor
  · have hs : jsonSpace ' ' = true := by decide
    have hskip : skipSpace (' ' :: (c :: r ++ c0 :: rest)) = c :: (r ++ c0 :: rest) := by
      rw [List.cons_append]
      simp only [skipSpace, hs, if_true, hsp, Bool.false_eq_true, if_false]
    rw [List.cons_append] at hn1
    simp only [scan, hskip, h1, h2, h3, if_false, hc, or_true, if_true, hn1]
  · have hs : jsonSpace ' ' = true := by decide
    have hm : jsonSpace '-' = false := by decide
    have hskip : skipSpace (' ' :: '-' :: (c :: r ++ c0 :: rest))
        = '-' :: (c :: r ++ c0 :: rest) := by
      simp only [skipSpace, hs, if_true, hm, Bool.false_eq_true, if_false]
    have e1 : ('-' : Char) ≠ '\x7b' := by decide
    have e2 : ('-' : Char) ≠ '[' := by decide
    have e3 : ('-' : Char) ≠ '\x22' := by decide
    simp only [scan, hskip, e1, e2, e3, if_false, true_or, if_true, hn2]

theorem renderNat_spec (n : Nat) :
    digitsValue (renderNat n) = n ∧ (∀ c ∈ renderNat n, c.isDigit = true) ∧
      ∃ c r, renderNat n = c :: r ∧ (c = '0' → r = []) := by
  obtain ⟨hv, hd, c, r, hcr, hz⟩ := natDigits_spec (n + 1) n (Nat.lt_succ_self n)
  exact ⟨hv, hd, c, r, hcr, fun h => (hz h).2⟩

theorem scan_value_int (fuel depth : Nat) (i : Int) (c0 : Char) (rest : List Char)
    (hc0 : c0 = ',' ∨ c0 = '\x7d') :
    scan (fuel + 1) depth ScanMode.value (' ' :: (renderInt i ++ c0 :: rest))
      = some (JShape.number (decide (i < 0)) (renderNat i.natAbs) true, [], c0 :: rest) := by
  obtain ⟨_, hd, c, r, hcr, hz⟩ := renderNat_spec i.natAbs
  rw [hcr] at hd
  obtain ⟨h1, h2⟩ := scan_value_digits fuel depth c r c0 rest hd hz hc0
  by_cases hi : i < 0
  · simp only [renderInt, hi, if_true, hcr, decide_True]
    exact h2
  · simp only [renderInt, hi, if_false, hcr, decide_False]
    exact h1

theorem int64Of_rendered (i : Int) (h0 : -9223372036854775808 ≤ i) (h1 : i ≤ 9223372036854775807) :
    int64Of (JShape.number (decide (i < 0)) (renderNat i.natAbs) true) = some (some i) := by
  have hv := (renderNat_spec i.natAbs).1
  by_cases hi : i < 0
  · have hn : -((i.natAbs : Nat) : Int) = i := by omega
    simp only [int64Of, hv, hi, decide_True, if_true, hn]
    rw [if_pos ⟨trivial, h0, h1⟩]
  · have hn : ((i.natAbs : Nat) : Int) = i := by omega
    simp only [int64Of, hv, hi, decide_False, Bool.false_eq_true, if_false, hn]
    rw [if_pos ⟨trivial, h0, h1⟩]

theorem scanString_in (rest : List Char) :
    scanString ('i' :: 'n' :: '\x22' :: rest).length ('i' :: 'n' :: '\x22' :: rest)
      = some (['i', 'n'], rest) := by
  simp [scanString]

theorem scanString_out (rest : List Char) :
    scanString ('o' :: 'u' :: 't' :: '\x22' :: rest).length ('o' :: 'u' :: 't' :: '\x22' :: rest)
      = some (['o', 'u', 't'], rest) := by
  simp [scanString]

theorem scan_member_out (fuel depth : Nat) (o : Int) (tail : List Char) :
    scan (fuel + 2) depth ScanMode.members
        (' ' :: '\x22' :: 'o' :: 'u' :: 't' :: '\x22' :: ':' :: ' ' :: (renderInt o ++ '\x7d' :: tail))
      = some (JShape.object,
          [(['o', 'u', 't'], JShape.number (decide (o < 0)) (renderNat o.natAbs) true)], tail) := by
  have hv := scan_value_int fuel depth o '\x7d' tail (Or.inr rfl)
  have h1 : skipSpace (' ' :: '\x22' :: 'o' :: 'u' :: 't' :: '\x22' :: ':' :: ' '
      :: (renderInt o ++ '\x7d' :: tail))
      = '\x22' :: 'o' :: 'u' :: 't' :: '\x22' :: ':' :: ' ' :: (renderInt o ++ '\x7d' :: tail) := by
    simp [skipSpace, jsonSpace]
  have h2 : skipSpace (':' :: ' ' :: (renderInt o ++ '\x7d' :: tail))
      = ':' :: ' ' :: (renderInt o ++ '\x7d' :: tail) := by
    simp [skipSpace, jsonSpace]
  have h3 : skipSpace ('\x7d' :: tail) = '\x7d' :: tail := by
    simp [skipSpace, jsonSpace]
  rw [scan]
  simp only [h1, if_true, scanString_out, h2, hv, h3]
  simp

theorem scan_member_in (fuel depth : Nat) (i o : Int) (tail : List Char) :
    scan (fuel + 3) depth ScanMode.members
        ('\x22' :: 'i' :: 'n' :: '\x22' :: ':' :: ' ' :: (renderInt i
          ++ ',' :: ' ' :: '\x22' :: 'o' :: 'u' :: 't' :: '\x22' :: ':' :: ' '
            :: (renderInt o ++ '\x7d' :: tail)))
      = some (JShape.object,
          [(['i', 'n'], JShape.number (decide (i < 0)) (renderNat i.natAbs) true),
           (['o', 'u', 't'], JShape.number (decide (o < 0)) (renderNat o.natAbs) true)], tail) := by
  have hv := scan_value_int (fuel + 1) depth i ','
    (' ' :: '\x22' :: 'o' :: 'u' :: 't' :: '\x22' :: ':' :: ' ' :: (renderInt o ++ '\x7d' :: tail))
    (Or.inl rfl)
  have hm := scan_member_out fuel depth o tail
  have h1 : ∀ X : List Char, skipSpace ('\x22' :: X) = '\x22' :: X := by
    intro X; simp [skipSpace, jsonSpace]
  have h2 : ∀ X : List Char, skipSpace (':' :: X) = ':' :: X := by
    intro X; simp [skipSpace, jsonSpace]
  have h3 : ∀ X : List Char, skipSpace (',' :: X) = ',' :: X := by
    intro X; simp [skipSpace, jsonSpace]
  rw [scan]
  simp only [h1, if_true, scanString_in, h2, hv, h3, hm]

theorem scanBody_exampleBody (i o : Int) (tail : List Char) :
    scanBody (exampleBody i o tail)
      = some (JShape.object,
          [(['i', 'n'], JShape.number (decide (i < 0)) (renderNat i.natAbs) true),
           (['o', 'u', 't'], JShape.number (decide (o < 0)) (renderNat o.natAbs) true)], tail) := by
  obtain ⟨k, hk⟩ : ∃ k, 2 * (exampleBody i o tail).length + 2 = k + 4 := by
    refine ⟨2 * (exampleBody i o tail).length - 2, ?_⟩
    have : 1 ≤ (exampleBody i o tail).length := by
      simp [exampleBody, String.length]
    omega
  have hm := scan_member_in k 1 i o tail
  have h1 : ∀ X : List Char, skipSpace ('\x7b' :: X) = '\x7b' :: X := by
    intro X; simp [skipSpace, jsonSpace]
  have h2 : ∀ X : List Char, skipSpace ('\x22' :: X) = '\x22' :: X := by
    intro X; simp [skipSpace, jsonSpace]
  have hd : ¬ (0 + 1 > maxNestingDepth) := by decide
  unfold scanBody
  rw [hk]
  simp only [exampleBody, String.toList, List.cons_append, List.nil_append, List.append_assoc]
  rw [scan]
  simp only [h1, if_true, hd, if_false, h2]
  simp only [List.cons_append, List.nil_append] at hm
  simp [hm]

theorem decodeResponse_exampleBody (i o : Int) (tail : List Char)
    (hi0 : -9223372036854775808 ≤ i) (hi1 : i ≤ 9223372036854775807)
    (ho0 : -9223372036854775808 ≤ o) (ho1 : o ≤ 9223372036854775807) :
    decodeResponse (exampleBody i o tail) = .ok ⟨i, o⟩ := by
  have hin : keyIs "in" ['i', 'n'] = true := by decide
  have hout1 : keyIs "in" ['o', 'u', 't'] = false := by decide
  have hout2 : keyIs "out" ['o', 'u', 't'] = true := by decide
  simp only [decodeResponse, scanBody_exampleBody, storeMembers, hin, if_true, hout1,
    Bool.false_eq_true, if_false, hout2, int64Of_rendered i hi0 hi1, int64Of_rendered o ho0 ho1]

/-- C9 (amended): with the JSON decoder of the standard library, when the request
is sent and answered with status 200 and the body starts with a JSON value that
decodes into the response struct with the rates `in` and `out`, `In` returns
`NewLimiter(in)` and `Out` returns `NewLimiter(out)`; this is so for every body
that starts with an object in the format of the example carrying integers `in`
and `out` of the `int64` range, whatever text follows the object. When the
status is not 200, or the body does not start with a value that decodes, or
`Do` fails, or the request cannot be built, or there is no client, both return
nil. -/
theorem http_quota_client_first_json_value (p : httpPlugin) (rt : PluginRuntime) (key : String)
    (opts : List LimiterOption) :
    (∀ client v req resp res, p.client = some client → rt.marshal (requestOf opts) = .ok v →
      rt.newRequest p.url v = .ok req → rt.doRequest client (p.prepare req) = .ok resp →
      resp.StatusCode = 200 → decodeResponse resp.Body = .ok res →
        p.In rt.withJSON key opts = rt.NewLimiter res.In ∧
        p.Out rt.withJSON key opts = rt.NewLimiter res.Out) ∧
    (∀ client v req resp i o tail, p.client = some client → rt.marshal (requestOf opts) = .ok v →
      rt.newRequest p.url v = .ok req → rt.doRequest client (p.prepare req) = .ok resp →
      resp.StatusCode = 200 → resp.Body = exampleBody i o tail →
      -9223372036854775808 ≤ i → i ≤ 9223372036854775807 →
      -9223372036854775808 ≤ o → o ≤ 9223372036854775807 →
        p.In rt.withJSON key opts = rt.NewLimiter i ∧
        p.Out rt.withJSON key opts = rt.NewLimiter o) ∧
    (∀ client v req resp, p.client = some client → rt.marshal (requestOf opts) = .ok v →
      rt.newRequest p.url v = .ok req → rt.doRequest client (p.prepare req) = .ok resp →
      resp.StatusCode ≠ 200 →
        p.In rt.withJSON key opts = none ∧ p.Out rt.withJSON key opts = none) ∧
    (∀ client v req resp e, p.client = some client → rt.marshal (requestOf opts) = .ok v →
      rt.newRequest p.url v = .ok req → rt.doRequest client (p.prepare req) = .ok resp →
      decodeResponse resp.Body = .error e →
        p.In rt.withJSON key opts = none ∧ p.Out rt.withJSON key opts = none) ∧
    (∀ client v req e, p.client = some client → rt.marshal (requestOf opts) = .ok v →
      rt.newRequest p.url v = .ok req → rt.doRequest client (p.prepare req) = .error e →
        p.In rt.withJSON key opts = none ∧ p.Out rt.withJSON key opts = none) ∧
    (∀ client v e, p.client = some client → rt.marshal (requestOf opts) = .ok v →
      rt.newRequest p.url v = .error e →
        p.In rt.withJSON key opts = none ∧ p.Out rt.withJSON key opts = none) ∧
    (∀ client e, p.client = some client → rt.marshal (requestOf opts) = .error e →
      p.In rt.withJSON key opts = none ∧ p.Out rt.withJSON key opts = none) ∧
    (p.client = none →
      p.In rt.withJSON key opts = none ∧ p.Out rt.withJSON key opts = none) := by
  obtain ⟨h1, h2, h3, h4, h5, h6, h7⟩ := httpPlugin_paths p rt.withJSON key opts
  refine ⟨?_, ?_, ?_, ?_, ?_, ?_, ?_, ?_⟩
  · intro client v req resp res hc hm hq hd hs hdec
    exact h1 client v req resp res hc hm hq hd hs hdec
  · intro client v req resp i o tail hc hm hq hd hs hb hi0 hi1 ho0 ho1
    have hdec : decodeResponse resp.Body = .ok ⟨i, o⟩ := by
      rw [hb]; exact decodeResponse_exampleBody i o tail hi0 hi1 ho0 ho1
    exact h1 client v req resp ⟨i, o⟩ hc hm hq hd hs hdec
  · intro client v req resp hc hm hq hd hs
    exact h2 client v req resp hc hm hq hd hs
  · intro client v req resp e hc hm hq hd hdec
    exact h3 client v req resp e hc hm hq hd hdec
  · intro client v req e hc hm hq hd
    exact h4 client v req e hc hm hq hd
  · intro client v e hc hm hq
    exact h5 client v e hc hm hq
  · intro client e hc hm
    exact h6 client e hc hm
  · exact h7

/-- Witness of C9 (amended): the stub answering 200 with the example body followed
by other text yields the limiters of rate 1000 and 500; the stub answering 500
yields nil twice. -/
theorem http_quota_client_first_json_value_witness :
    exampleBody 1000 500 " trailing text".toList = trailingBody ∧
    (samplePlugin.In (jsonStub 200 (exampleBody 1000 500 " trailing text".toList)) "" []
        = some ⟨1000⟩ ∧
      samplePlugin.Out (jsonStub 200 (exampleBody 1000 500 " trailing text".toList)) "" []
        = some ⟨500⟩) ∧
    (samplePlugin.In (jsonStub 500 "") "" [] = none ∧
      samplePlugin.Out (jsonStub 500 "") "" [] = none) :=
  ⟨by decide,
    (http_quota_client_first_json_value samplePlugin
        (stubRuntime 200 (exampleBody 1000 500 " trailing text".toList)) "" []).2.1
      ⟨1⟩ [] ⟨"POST", "http://127.0.0.1:8000/limiter", [], []⟩
      ⟨200, exampleBody 1000 500 " trailing text".toList⟩ 1000 500 " trailing text".toList
      rfl rfl rfl rfl rfl rfl (by decide) (by decide) (by decide) (by decide),
    (http_quota_client_first_json_value samplePlugin (stubRuntime 500 "") "" []).2.2.1 ⟨1⟩ []
      ⟨"POST", "http://127.0.0.1:8000/limiter", [], []⟩ ⟨500, ""⟩ rfl rfl rfl rfl (by decide)⟩

theorem exampleBody_of_specification :
    exampleBody 1000 500 [] = "\x7b\"in\": 1000, \"out\": 500\x7d" ∧
    exampleBody (-7) 0 [] = "\x7b\"in\": -7, \"out\": 0\x7d" := by
  decide

theorem decodeResponse_samples :
    (decodeResponse "\x7b\"out\":500,\"in\":1000\x7d").toOption = some ⟨1000, 500⟩ ∧
    (decodeResponse "\x7b\"IN\": 3, \"x\": [true, \x7b\"in\": 9\x7d], \"Out\": 4\x7d").toOption
      = some ⟨3, 4⟩ ∧
    (decodeResponse "\x7b\"in\": 5\x7d").toOption = some ⟨5, 0⟩ ∧
    (decodeResponse "null").toOption = some ⟨0, 0⟩ ∧
    (decodeResponse "\x7b\"in\": 1, \"in\": 2\x7d").toOption = some ⟨2, 0⟩ ∧
    (decodeResponse "").toOption = none ∧
    (decodeResponse "[1000, 500]").toOption = none ∧
    (decodeResponse "\x7b\"in\": \"1000\", \"out\": 500\x7d").toOption = none ∧
    (decodeResponse "\x7b\"in\": 1.5, \"out\": 500\x7d").toOption = none ∧
    (decodeResponse "\x7b\"in\": 1e3, \"out\": 500\x7d").toOption = none ∧
    (decodeResponse "\x7b\"in\": 1000, \"out\": 500").toOption = none ∧
    (decodeResponse "\x7b\"in\": 1000,\x7d").toOption = none ∧
    (decodeResponse "\x7b\"in\": -9223372036854775809\x7d").toOption = none ∧
    (decodeResponse "\x7b\"in\": -9223372036854775808\x7d").toOption
      = some ⟨-9223372036854775808, 0⟩ := by
  decide

end Gost
